import Mathlib

/-!
# Verification of the offline-transcriber formatting and audio pipeline

Shallow embedding of the `offline_transcriber` Python package:
`postprocessor.py` (timestamp formatting, SRT/VTT/JSON generation, multi-format
saving), `audio.py` (normalization and PCM scaling) and `transcriber.py`
(task validation).  Python floats are modelled as rationals, Python ints as
`Int`/`Nat`, and fallible operations return `Option`/`Except`.
-/

set_option maxHeartbeats 1000000

/-! ## Decimal rendering helpers (model of Python `f"{n:0Nd}"` and `str`) -/


/-- The character for one decimal digit `d < 10`. -/
def digitChar (d : ℕ) : Char := Char.ofNat (48 + d)

/-- Big-endian list of the `w` low decimal digit characters of `n`
(positions `w-1, …, 1, 0`).  Always used with `10 ^ w > n`, where it is the
full `w`-wide zero-padded decimal rendering of `n`. -/
def padDigitsList : ℕ → ℕ → List Char
  | 0, _ => []
  | w + 1, n => digitChar (n / 10 ^ w % 10) :: padDigitsList w n

/-- Number of decimal digits of `n` (1 for 0–9, 2 for 10–99, …).
Fuel-based so that it reduces by kernel computation; `numDigitsAux fuel n`
is correct whenever `n ≤ fuel`. -/
def numDigitsAux : ℕ → ℕ → ℕ
  | 0, _ => 1
  | fuel + 1, n => if n < 10 then 1 else numDigitsAux fuel (n / 10) + 1

/-- Number of decimal digits of `n`. -/
def numDigits (n : ℕ) : ℕ := numDigitsAux n n

/-- Decimal rendering of a natural number, zero-padded on the left to at
least `w` characters: the model of Python's `f"{n:0wd}"` for `n ≥ 0`
(padding is a minimum width, large numbers are never truncated). -/
def natPad (w n : ℕ) : String := (padDigitsList (max w (numDigits n)) n).asString

/-- Decimal rendering of an integer, zero-padded to at least `w` characters:
the model of Python's `f"{i:0wd}"`.  For negative numbers Python puts the
sign first and the sign counts toward the width. -/
def intPad (w : ℕ) (i : ℤ) : String :=
  if i < 0 then "-" ++ natPad (w - 1) i.natAbs else natPad w i.toNat

/-- Python's `str` on an integer (no padding). -/
def intStr (i : ℤ) : String := intPad 1 i

/-! ## Data model (`transcriber.py`) -/
/-- `Segment` dataclass: one transcription segment with timing information. -/
structure Segment where
  id : ℤ
  start : ℚ
  «end» : ℚ
  text : String
deriving DecidableEq

/-- `TranscriptionResult` dataclass: complete transcription result. -/
structure TranscriptionResult where
  text : String
  segments : List Segment
  language : String
deriving DecidableEq

/-! ## `postprocessor._format_timestamp`

Python's `x %= m` on floats is `x - m * ⌊x / m⌋`, and `int(x)` for the
non-negative values arising here is `⌊x⌋`; the unsupported-format branch
raises `ValueError`, modelled as `none`. -/
/-- Python's `str.lower()` (the format names involved are ASCII). -/
def strLower (s : String) : String := (s.data.map Char.toLower).asString

/-- `_format_timestamp(seconds, format_type)`. -/
def format_timestamp (seconds : ℚ) (format_type : String) : Option String :=
  let hours : ℤ := ⌊seconds / 3600⌋
  let seconds1 : ℚ := seconds - 3600 * hours
  let minutes : ℤ := ⌊seconds1 / 60⌋
  let seconds2 : ℚ := seconds1 - 60 * minutes
  let milliseconds : ℤ := ⌊(seconds2 - ⌊seconds2⌋) * 1000⌋
  let secondsI : ℤ := ⌊seconds2⌋
  if strLower format_type = "srt" then
    some (intPad 2 hours ++ ":" ++ intPad 2 minutes ++ ":" ++ intPad 2 secondsI
      ++ "," ++ intPad 3 milliseconds)
  else if strLower format_type = "vtt" then
    some (intPad 2 hours ++ ":" ++ intPad 2 minutes ++ ":" ++ intPad 2 secondsI
      ++ "." ++ intPad 3 milliseconds)
  else none

/-! ## Output generators (`postprocessor.py`) -/
/-- `generate_plain_text(result)`. -/
def generate_plain_text (result : TranscriptionResult) : String := result.text

/-- `generate_srt(result)`.  The calls to `_format_timestamp` use the
default `"srt"` format type, which never raises; `getD ""` only totalizes
the unreachable `none` branch. -/
def generate_srt (result : TranscriptionResult) : String :=
  let srt_lines : List String :=
    result.segments.foldl (fun lines segment =>
      lines ++ [intStr (segment.id + 1),
        (format_timestamp segment.start "srt").getD "" ++ " --> "
          ++ (format_timestamp segment.«end» "srt").getD "",
        segment.text, ""]) []
  String.intercalate "\n" srt_lines

/-- `generate_vtt(result)`.  Same totalization remark as `generate_srt`. -/
def generate_vtt (result : TranscriptionResult) : String :=
  let vtt_lines : List String :=
    result.segments.foldl (fun lines segment =>
      lines ++ [(format_timestamp segment.start "vtt").getD "" ++ " --> "
          ++ (format_timestamp segment.«end» "vtt").getD "",
        segment.text, ""]) ["WEBVTT", ""]
  String.intercalate "\n" vtt_lines

/-- The spec's end-to-end example `TranscriptionResult`. -/
def exampleResult : TranscriptionResult :=
  { text := "This is a test transcription with multiple segments."
    segments :=
      [ { id := 0, start := 0, «end» := 2.5, text := "This is a test" }
      , { id := 1, start := 2.5, «end» := 5, text := "transcription with" }
      , { id := 2, start := 5, «end» := 7.5, text := "multiple segments." } ]
    language := "en" }

/-! ## Millisecond-level view of `_format_timestamp`

For `0 ≤ s`, all four fields of the formatted timestamp are determined by
the single natural number `⌊s * 1000⌋₊` (total whole milliseconds). -/
/-- The timestamp string determined by a total number of milliseconds `v`
and a separator. -/
def msTimestampString (v : ℕ) (sep : String) : String :=
  natPad 2 (v / 3600000) ++ ":" ++ natPad 2 (v / 60000 % 60) ++ ":"
    ++ natPad 2 (v / 1000 % 60) ++ sep ++ natPad 3 (v % 1000)

/-! ## Audio preprocessing (`audio.py`)

pydub's `AudioSegment` is modelled by its fields relevant to this module;
the pydub primitives `set_channels` / `set_frame_rate` are external library
calls, taken as parameters constrained by their documented contracts. -/
/-- The fields of a pydub `AudioSegment` used by `audio.py`. -/
structure AudioSegment where
  channels : ℕ
  frame_rate : ℕ
  sample_width : ℕ
  samples : List ℤ
deriving DecidableEq

/-- `SAMPLE_RATE = 16000`. -/
def SAMPLE_RATE : ℕ := 16000

/-- `preprocess_audio(audio)`, parametric in the pydub primitives. -/
def preprocess_audio (set_channels set_frame_rate : AudioSegment → ℕ → AudioSegment)
    (audio : AudioSegment) : AudioSegment :=
  let audio1 := if audio.channels > 1 then set_channels audio 1 else audio
  let audio2 := if audio1.frame_rate ≠ SAMPLE_RATE then set_frame_rate audio1 SAMPLE_RATE
    else audio1
  audio2

/-- `get_audio_array(audio)`: PCM samples scaled by `1 << (8 * sample_width - 1)`. -/
def get_audio_array (audio : AudioSegment) : List ℚ :=
  audio.samples.map
    (fun v : ℤ => (v : ℚ) / ((1 <<< (8 * audio.sample_width - 1) : ℕ) : ℚ))

/-- Model `set_channels`: updates the channel count. -/
def setChannelsModel (a : AudioSegment) (n : ℕ) : AudioSegment := { a with channels := n }

/-- Model `set_frame_rate`: updates the frame rate. -/
def setFrameRateModel (a : AudioSegment) (r : ℕ) : AudioSegment := { a with frame_rate := r }

/-! ## Transcriber (`transcriber.py`)

The whisper engine is external: model loading and the engine call are
parameters.  Python raises `ValueError` both for an invalid task (before any
model loading) and for a wrapped engine failure; the two distinct raise
sites are modelled as distinct error constructors.  An exception leaves the
transcriber's lazily-loaded `model` attribute in whatever state it had when
the exception was raised, which the model makes explicit by returning the
transcriber alongside the result. -/
/-- `WHISPER_MODELS`. -/
def WHISPER_MODELS : List String := ["tiny", "base", "small", "medium", "large"]

/-- `WhisperTranscriber` state: the lazily-loaded engine handle is `model`. -/
structure WhisperTranscriber (Model : Type) where
  model_name : String
  device : Option String
  model : Option Model

/-- The errors `transcribe` can raise. -/
inductive TranscribeError where
  | invalidTask (task : String)
  | loadFailure (msg : String)
  | transcriptionFailed (msg : String)
deriving DecidableEq

/-- One segment as returned by the external engine. -/
structure RawSeg where
  start : ℚ
  «end» : ℚ
  text : String

/-- The external engine's result dictionary. -/
structure RawResult where
  text : String
  segments : List RawSeg
  language : String

/-- `WhisperTranscriber.load_model`: load the engine handle if not already
loaded; `loadModel` is the external `whisper.load_model`. -/
def load_model {Model : Type} (loadModel : String → Option String → Except String Model)
    (t : WhisperTranscriber Model) :
    Except String (Model × WhisperTranscriber Model) :=
  match t.model with
  | some m => .ok (m, t)
  | none =>
    match loadModel t.model_name t.device with
    | .ok m => .ok (m, { t with model := some m })
    | .error e => .error e

/-- `WhisperTranscriber._convert_whisper_segments`. -/
def convert_whisper_segments (segments : List RawSeg) : List Segment :=
  segments.enum.map (fun p =>
    { id := (p.1 : ℤ), start := p.2.start, «end» := p.2.«end», text := p.2.text.trim })

/-- `WhisperTranscriber.transcribe`: validates `task`, lazily loads the
model, runs the engine, and wraps engine failures.  Returns the result (or
error) together with the transcriber state after the call. -/
def transcribe {Model α : Type}
    (loadModel : String → Option String → Except String Model)
    (engine : Model → α → Option String → String → Except String RawResult)
    (t : WhisperTranscriber Model) (audio : α)
    (language : Option String) (task : String) :
    Except TranscribeError TranscriptionResult × WhisperTranscriber Model :=
  if task ∉ ["transcribe", "translate"] then
    (.error (.invalidTask task), t)
  else
    match load_model loadModel t with
    | .error e => (.error (.loadFailure e), t)
    | .ok (m, t1) =>
      match engine m audio language task with
      | .error e => (.error (.transcriptionFailed e), t1)
      | .ok raw =>
        (.ok { text := raw.text.trim,
               segments := convert_whisper_segments raw.segments,
               language := raw.language }, t1)

/-! ## JSON generation (`postprocessor.generate_json`)

`json.dumps(json_dict, ensure_ascii=False, indent=2)` is a Python stdlib
call; it is modelled by its documented output for this fixed document shape:
two-space indentation, `": "` item separators, strings with `"`, `\` and
control characters escaped (all other characters literal UTF-8).  Python's
`repr` of a float — the shortest decimal string that parses back to the same
float — is abstracted as a parameter `numRepr` constrained below exactly by
that round-trip property. -/
/-- A lowercase hexadecimal digit. -/
def hexDigitChar (n : ℕ) : Char :=
  if n < 10 then digitChar n else Char.ofNat (97 + (n - 10))

/-- JSON escaping of one character, `ensure_ascii=False`. -/
def escapeChar (c : Char) : List Char :=
  if c = '"' then ['\\', '"']
  else if c = '\\' then ['\\', '\\']
  else if c = '\n' then ['\\', 'n']
  else if c = '\t' then ['\\', 't']
  else if c = '\r' then ['\\', 'r']
  else if c = Char.ofNat 8 then ['\\', 'b']
  else if c = Char.ofNat 12 then ['\\', 'f']
  else if c.toNat < 32 then
    ['\\', 'u', '0', '0', hexDigitChar (c.toNat / 16), hexDigitChar (c.toNat % 16)]
  else [c]

/-- A JSON string literal with its quotes. -/
def encodeString (s : String) : String :=
  ('"' :: (s.data.flatMap escapeChar ++ ['"'])).asString

/-- One segment dictionary as `json.dumps` lays it out at depth 2. -/
def segJsonString (numRepr : ℚ → String) (segment : Segment) : String :=
  "    \x7b\n      \"id\": " ++ intStr segment.id
    ++ ",\n      \"start\": " ++ numRepr segment.start
    ++ ",\n      \"end\": " ++ numRepr segment.«end»
    ++ ",\n      \"text\": " ++ encodeString segment.text
    ++ "\n    \x7d"

/-- `generate_json(result)`: the `json.dumps` output for
`{"text": …, "language": …, "segments": […]}`. -/
def generate_json (numRepr : ℚ → String) (result : TranscriptionResult) : String :=
  "\x7b\n  \"text\": " ++ encodeString result.text
    ++ ",\n  \"language\": " ++ encodeString result.language
    ++ ",\n  \"segments\": "
    ++ (if result.segments.isEmpty then "[]"
        else "[\n"
          ++ String.intercalate ",\n" (result.segments.map (segJsonString numRepr))
          ++ "\n  ]")
    ++ "\n\x7d"

/-! ## A JSON reader, to state the round-trip property -/
/-- JSON values (the constructs this document uses). -/
inductive Json where
  | str (s : String)
  | num (q : ℚ)
  | arr (xs : List Json)
  | obj (fields : List (String × Json))

/-- JSON insignificant whitespace. -/
def isWsChar (c : Char) : Bool := c = ' ' || c = '\n' || c = '\t' || c = '\r'

/-- Skip insignificant whitespace. -/
def skipWs (cs : List Char) : List Char := cs.dropWhile isWsChar

/-- Characters that may appear in a JSON number token. -/
def isNumChar (c : Char) : Bool :=
  c.isDigit || c = '-' || c = '+' || c = '.' || c = 'e' || c = 'E'

/-- Value of a big-endian decimal digit string, with accumulator. -/
def digitsToNat : List Char → ℕ → ℕ
  | [], acc => acc
  | c :: cs, acc => digitsToNat cs (acc * 10 + (c.toNat - 48))

/-- Read an unsigned decimal number token (`ddd` or `ddd.ddd`), whole. -/
def parseUnsigned (cs : List Char) : Option ℚ :=
  let intPart := cs.takeWhile Char.isDigit
  let rest := cs.dropWhile Char.isDigit
  if intPart.isEmpty then none
  else
    match rest with
    | [] => some ((digitsToNat intPart 0 : ℕ) : ℚ)
    | '.' :: frac =>
      if frac.isEmpty || !frac.all Char.isDigit then none
      else some (((digitsToNat intPart 0 : ℕ) : ℚ)
        + ((digitsToNat frac 0 : ℕ) : ℚ) / (10 : ℚ) ^ frac.length)
    | _ => none

/-- Read a whole (possibly negative) number token. -/
def parseNumToken (cs : List Char) : Option ℚ :=
  match cs with
  | [] => none
  | c :: rest =>
    if c = '-' then (parseUnsigned rest).map (fun q => -q)
    else parseUnsigned (c :: rest)

/-- Hexadecimal digit value. -/
def hexVal (c : Char) : Option ℕ :=
  if 48 ≤ c.toNat ∧ c.toNat ≤ 57 then some (c.toNat - 48)
  else if 97 ≤ c.toNat ∧ c.toNat ≤ 102 then some (c.toNat - 87)
  else if 65 ≤ c.toNat ∧ c.toNat ≤ 70 then some (c.toNat - 55)
  else none

/-- Read four hexadecimal digits of a `\u` escape. -/
def parseHex4 (cs : List Char) : Option (Char × List Char) :=
  match cs with
  | h1 :: h2 :: h3 :: h4 :: cs3 =>
    match hexVal h1, hexVal h2, hexVal h3, hexVal h4 with
    | some a, some b, some c, some d =>
      some (Char.ofNat (((a * 16 + b) * 16 + c) * 16 + d), cs3)
    | _, _, _, _ => none
  | _ => none

/-- Read a string body (after the opening quote) up to and including the
closing quote, decoding escapes; returns the content and the remainder. -/
def parseStringBody : ℕ → List Char → Option (List Char × List Char)
  | 0, _ => none
  | _ + 1, [] => none
  | fuel + 1, c :: cs =>
    if c = '"' then some ([], cs)
    else if c = '\\' then
      match cs with
      | [] => none
      | e :: cs2 =>
        if e = '"' then (parseStringBody fuel cs2).map (fun p => ('"' :: p.1, p.2))
        else if e = '\\' then (parseStringBody fuel cs2).map (fun p => ('\\' :: p.1, p.2))
        else if e = 'n' then (parseStringBody fuel cs2).map (fun p => ('\n' :: p.1, p.2))
        else if e = 't' then (parseStringBody fuel cs2).map (fun p => ('\t' :: p.1, p.2))
        else if e = 'r' then (parseStringBody fuel cs2).map (fun p => ('\r' :: p.1, p.2))
        else if e = 'b' then
          (parseStringBody fuel cs2).map (fun p => (Char.ofNat 8 :: p.1, p.2))
        else if e = 'f' then
          (parseStringBody fuel cs2).map (fun p => (Char.ofNat 12 :: p.1, p.2))
        else if e = 'u' then
          match parseHex4 cs2 with
          | some (ch, cs3) =>
            (parseStringBody fuel cs3).map (fun p => (ch :: p.1, p.2))
          | none => none
        else none
    else (parseStringBody fuel cs).map (fun p => (c :: p.1, p.2))

mutual

/-- Read one JSON value. -/
def parseValue : ℕ → List Char → Option (Json × List Char)
  | 0, _ => none
  | fuel + 1, cs =>
    match skipWs cs with
    | [] => none
    | c :: rest =>
      if c = '"' then
        (parseStringBody (rest.length + 1) rest).map
          (fun p => (Json.str p.1.asString, p.2))
      else if c = '[' then
        match skipWs rest with
        | ']' :: rest2 => some (Json.arr [], rest2)
        | rest2 => (parseItems fuel rest2).map (fun p => (Json.arr p.1, p.2))
      else if c = '{' then
        match skipWs rest with
        | '}' :: rest2 => some (Json.obj [], rest2)
        | rest2 => (parseFields fuel rest2).map (fun p => (Json.obj p.1, p.2))
      else if isNumChar c then
        (parseNumToken ((c :: rest).takeWhile isNumChar)).map
          (fun q => (Json.num q, (c :: rest).dropWhile isNumChar))
      else none

/-- Read the items of a non-empty array, including the closing bracket. -/
def parseItems : ℕ → List Char → Option (List Json × List Char)
  | 0, _ => none
  | fuel + 1, cs =>
    match parseValue fuel cs with
    | none => none
    | some (j, rest) =>
      match skipWs rest with
      | ',' :: rest2 => (parseItems fuel rest2).map (fun p => (j :: p.1, p.2))
      | ']' :: rest2 => some ([j], rest2)
      | _ => none

/-- Read the fields of a non-empty object, including the closing brace. -/
def parseFields : ℕ → List Char → Option (List (String × Json) × List Char)
  | 0, _ => none
  | fuel + 1, cs =>
    match skipWs cs with
    | '"' :: rest =>
      match parseStringBody (rest.length + 1) rest with
      | none => none
      | some (key, rest2) =>
        match skipWs rest2 with
        | ':' :: rest3 =>
          match parseValue fuel rest3 with
          | none => none
          | some (j, rest4) =>
            match skipWs rest4 with
            | ',' :: rest5 =>
              (parseFields fuel rest5).map (fun p => ((key.asString, j) :: p.1, p.2))
            | '}' :: rest5 => some ([(key.asString, j)], rest5)
            | _ => none
        | _ => none
    | _ => none

end

/-- Parse a whole JSON document (no significant trailing content). -/
def parseJson (s : String) : Option Json :=
  match parseValue (s.length + 10) s.data with
  | some (j, rest) => if skipWs rest = [] then some j else none
  | none => none

/-- A numeric rendering round-trips through the reader: non-empty, made of
number-token characters, and `parseNumToken` recovers the exact value.
Python's float `repr` has this property for every float. -/
def goodNumRepr (numRepr : ℚ → String) (q : ℚ) : Prop :=
  (numRepr q).data ≠ [] ∧ (∀ c ∈ (numRepr q).data, isNumChar c = true) ∧
    parseNumToken (numRepr q).data = some q

/-- The JSON value `generate_json` describes. -/
def segJson (segment : Segment) : Json :=
  Json.obj [("id", Json.num (segment.id : ℚ)), ("start", Json.num segment.start),
    ("end", Json.num segment.«end»), ("text", Json.str segment.text)]

/-- The JSON value of a whole result. -/
def jsonOfResult (result : TranscriptionResult) : Json :=
  Json.obj [("text", Json.str result.text), ("language", Json.str result.language),
    ("segments", Json.arr (result.segments.map segJson))]

/-! ## The rendered segment list as a character spine -/
/-- The characters of a rendered segment object after its opening `{`,
followed by `suffix`. -/
def segCore (numRepr : ℚ → String) (seg : Segment) (suffix : List Char) : List Char :=
  '\n' :: ' ' :: ' ' :: ' ' :: ' ' :: ' ' :: ' ' ::
  '"' :: 'i' :: 'd' :: '"' :: ':' :: ' ' ::
  ((intStr seg.id).data ++ (',' :: '\n' :: ' ' :: ' ' :: ' ' :: ' ' :: ' ' :: ' ' ::
  '"' :: 's' :: 't' :: 'a' :: 'r' :: 't' :: '"' :: ':' :: ' ' ::
  ((numRepr seg.start).data ++ (',' :: '\n' :: ' ' :: ' ' :: ' ' :: ' ' :: ' ' :: ' ' ::
  '"' :: 'e' :: 'n' :: 'd' :: '"' :: ':' :: ' ' ::
  ((numRepr seg.«end»).data ++ (',' :: '\n' :: ' ' :: ' ' :: ' ' :: ' ' :: ' ' :: ' ' ::
  '"' :: 't' :: 'e' :: 'x' :: 't' :: '"' :: ':' :: ' ' ::
  ((encodeString seg.text).data ++
    ('\n' :: ' ' :: ' ' :: ' ' :: ' ' :: '}' :: suffix))))))))

/-- The characters following the first rendered segment: separators and
further segments, then the closing `]` and `rest`. -/
def segsTail (numRepr : ℚ → String) : List Segment → List Char → List Char
  | [], rest => '\n' :: ' ' :: ' ' :: ']' :: rest
  | s :: ss, rest =>
    ',' :: '\n' :: ((segJsonString numRepr s).data ++ segsTail numRepr ss rest)

def exampleNumRepr (q : ℚ) : String := intStr q.num

def exampleJsonResult : TranscriptionResult :=
  { text := "hello", segments := [{ id := 0, start := 0, «end» := 2, text := "Hi" }],
    language := "en" }

/-! ## `save_transcription` -/
/-- The `format_generators` dictionary, as an association list.
`generate_json` carries the numeric rendering as a parameter. -/
def format_generators (numRepr : ℚ → String) :
    List (String × (TranscriptionResult → String)) :=
  [("txt", generate_plain_text), ("srt", generate_srt),
   ("vtt", generate_vtt), ("json", generate_json numRepr)]

/-- `saved_files[k] = v` on an association list: Python dict update —
overwrite in place if the key exists, else append. -/
def insertOrUpdate : List (String × String) → String → String → List (String × String)
  | [], k, v => [(k, v)]
  | p :: m, k, v => if p.1 = k then (k, v) :: m else p :: insertOrUpdate m k v

/-- One iteration of the `for fmt in formats` loop of `save_transcription`.
`writeOk path content` is the environment oracle: whether opening `path`
and writing `content` succeeds (the `try`) or raises (the `except`). -/
def saveStep (numRepr : ℚ → String) (result : TranscriptionResult)
    (output_path : String) (writeOk : String → String → Bool)
    (saved : List (String × String)) (fmt : String) : List (String × String) :=
  match (format_generators numRepr).lookup (strLower fmt) with
  | none => saved
  | some gen =>
    let file_path := output_path ++ "." ++ strLower fmt
    let content := gen result
    if writeOk file_path content then insertOrUpdate saved (strLower fmt) file_path
    else saved

/-- `save_transcription(result, output_path, formats)`, returning the
`saved_files` mapping. -/
def save_transcription (numRepr : ℚ → String) (result : TranscriptionResult)
    (output_path : String) (formats : List String)
    (writeOk : String → String → Bool) : List (String × String) :=
  formats.foldl (saveStep numRepr result output_path writeOk) []

/-! ## Theorems -/

theorem intPad_natCast (w : ℕ) (n : ℕ) : intPad w (n : ℤ) = natPad w n := by
  simp [intPad]

theorem intFloor_eq_natFloor (a : ℚ) (h : 0 ≤ a) : ⌊a⌋ = (⌊a⌋₊ : ℤ) := by
  rw [← Int.floor_toNat, Int.toNat_of_nonneg (Int.floor_nonneg.mpr h)]

theorem natFloor_div_nat' (a : ℚ) (n : ℕ) : ⌊a / (n : ℚ)⌋₊ = ⌊a⌋₊ / n :=
  Nat.floor_div_nat a n

/-- Workhorse: for non-negative seconds, `_format_timestamp` in both
supported modes produces the string determined by `⌊s * 1000⌋₊`. -/
theorem format_timestamp_eq_ms (s : ℚ) (hs : 0 ≤ s) :
    format_timestamp s "srt" = some (msTimestampString ⌊s * 1000⌋₊ ",") ∧
    format_timestamp s "vtt" = some (msTimestampString ⌊s * 1000⌋₊ ".") := by
  set v : ℕ := ⌊s * 1000⌋₊ with hv
  set N : ℕ := ⌊s⌋₊ with hN
  have hNv : N = v / 1000 := by
    rw [hN, hv, ← natFloor_div_nat' (s * 1000) 1000]
    congr 1
    push_cast
    ring
  have hfloorle : (N : ℚ) ≤ s := hN ▸ Nat.floor_le hs
  -- hours
  have hH : ⌊s / 3600⌋ = ((N / 3600 : ℕ) : ℤ) := by
    have e : ⌊s / 3600⌋₊ = N / 3600 := by
      rw [hN, show (3600 : ℚ) = ((3600 : ℕ) : ℚ) by norm_num, natFloor_div_nat']
    rw [intFloor_eq_natFloor _ (div_nonneg hs (by norm_num)), e]
  -- value after `seconds %= 3600`
  have h1ub : (3600 : ℚ) * ((N / 3600 : ℕ) : ℚ) ≤ (N : ℚ) := by
    exact_mod_cast Nat.mul_div_le N 3600
  have h1nonneg : 0 ≤ s - 3600 * ((N / 3600 : ℕ) : ℚ) := by linarith
  have h1floor : ⌊s - 3600 * ((N / 3600 : ℕ) : ℚ)⌋₊ = N % 3600 := by
    rw [show s - 3600 * ((N / 3600 : ℕ) : ℚ) = s - ((3600 * (N / 3600) : ℕ) : ℚ) by
        push_cast; ring,
      Nat.floor_sub_nat, ← hN]
    omega
  -- minutes
  have hM : ⌊(s - 3600 * ((N / 3600 : ℕ) : ℚ)) / 60⌋ = ((N % 3600 / 60 : ℕ) : ℤ) := by
    have e : ⌊(s - 3600 * ((N / 3600 : ℕ) : ℚ)) / 60⌋₊ = N % 3600 / 60 := by
      rw [show (60 : ℚ) = ((60 : ℕ) : ℚ) by norm_num, natFloor_div_nat', h1floor]
    rw [intFloor_eq_natFloor _ (div_nonneg h1nonneg (by norm_num)), e]
  -- value after `seconds %= 60`
  have h2ub : (3600 : ℚ) * ((N / 3600 : ℕ) : ℚ) + 60 * ((N % 3600 / 60 : ℕ) : ℚ)
      ≤ (N : ℚ) := by
    have : 3600 * (N / 3600) + 60 * (N % 3600 / 60) ≤ N := by omega
    exact_mod_cast this
  have h2nonneg :
      0 ≤ s - 3600 * ((N / 3600 : ℕ) : ℚ) - 60 * ((N % 3600 / 60 : ℕ) : ℚ) := by linarith
  have h2floorN :
      ⌊s - 3600 * ((N / 3600 : ℕ) : ℚ) - 60 * ((N % 3600 / 60 : ℕ) : ℚ)⌋₊ = N % 60 := by
    rw [show s - 3600 * ((N / 3600 : ℕ) : ℚ) - 60 * ((N % 3600 / 60 : ℕ) : ℚ)
        = s - ((3600 * (N / 3600) + 60 * (N % 3600 / 60) : ℕ) : ℚ) by push_cast; ring,
      Nat.floor_sub_nat, ← hN]
    omega
  have hBI : ⌊s - 3600 * ((N / 3600 : ℕ) : ℚ) - 60 * ((N % 3600 / 60 : ℕ) : ℚ)⌋
      = ((N % 60 : ℕ) : ℤ) := by
    rw [intFloor_eq_natFloor _ h2nonneg, h2floorN]
  -- fractional part
  have hfrac : s - 3600 * ((N / 3600 : ℕ) : ℚ) - 60 * ((N % 3600 / 60 : ℕ) : ℚ)
      - ((N % 60 : ℕ) : ℚ) = s - (N : ℚ) := by
    have h3 : 3600 * (N / 3600) + 60 * (N % 3600 / 60) + N % 60 = N := by omega
    have h4 : ((3600 * (N / 3600) + 60 * (N % 3600 / 60) + N % 60 : ℕ) : ℚ) = (N : ℚ) := by
      exact_mod_cast congrArg (fun k : ℕ => (k : ℚ)) h3
    push_cast at h4
    linarith
  have hMS : ⌊(s - (N : ℚ)) * 1000⌋ = ((v % 1000 : ℕ) : ℤ) := by
    have h1000 : 1000 * N ≤ v := by omega
    rw [show (s - (N : ℚ)) * 1000 = s * 1000 - (((1000 * N : ℕ) : ℤ) : ℚ) by
        push_cast; ring,
      Int.floor_sub_int, intFloor_eq_natFloor _ (by nlinarith), ← hv]
    omega
  constructor
  · rw [format_timestamp, if_pos (by decide)]
    rw [hH]
    simp only [Int.cast_natCast]
    rw [hM]
    simp only [Int.cast_natCast]
    rw [hBI]
    simp only [Int.cast_natCast]
    rw [hfrac, hMS]
    simp only [intPad_natCast]
    simp only [msTimestampString]
    rw [show N / 3600 = v / 3600000 by omega, show N % 3600 / 60 = v / 60000 % 60 by omega,
      show N % 60 = v / 1000 % 60 by omega]
  · rw [format_timestamp, if_neg (by decide), if_pos (by decide)]
    rw [hH]
    simp only [Int.cast_natCast]
    rw [hM]
    simp only [Int.cast_natCast]
    rw [hBI]
    simp only [Int.cast_natCast]
    rw [hfrac, hMS]
    simp only [intPad_natCast]
    simp only [msTimestampString]
    rw [show N / 3600 = v / 3600000 by omega, show N % 3600 / 60 = v / 60000 % 60 by omega,
      show N % 60 = v / 1000 % 60 by omega]

/-! ## Basic facts about the rendering helpers -/
theorem padDigitsList_length (w n : ℕ) : (padDigitsList w n).length = w := by
  induction w generalizing n with
  | zero => rfl
  | succ w ih => simp [padDigitsList, ih]

theorem asString_data (l : List Char) : (List.asString l).data = l := rfl

theorem numDigitsAux_lt (fuel n : ℕ) (h : n ≤ fuel) : n < 10 ^ numDigitsAux fuel n := by
  induction fuel generalizing n with
  | zero =>
    interval_cases n
    simp [numDigitsAux]
  | succ fuel ih =>
    rw [numDigitsAux]
    by_cases h10 : n < 10
    · simpa [h10] using h10
    · have hn : n / 10 ≤ fuel := by omega
      have := ih (n / 10) hn
      simp only [h10, if_false]
      have h2 : n < 10 * (n / 10) + 10 := by omega
      calc n < 10 * (n / 10) + 10 := h2
        _ ≤ 10 * 10 ^ numDigitsAux fuel (n / 10) := by omega
        _ = 10 ^ (numDigitsAux fuel (n / 10) + 1) := by ring

theorem numDigits_lt (n : ℕ) : n < 10 ^ numDigits n := numDigitsAux_lt n n le_rfl

theorem numDigitsAux_le (fuel n w : ℕ) (hw : 1 ≤ w) (h : n < 10 ^ w) (hf : n ≤ fuel) :
    numDigitsAux fuel n ≤ w := by
  induction fuel generalizing n w with
  | zero => simpa [numDigitsAux] using hw
  | succ fuel ih =>
    rw [numDigitsAux]
    by_cases h10 : n < 10
    · simpa [h10] using hw
    · simp only [h10, if_false]
      have hw2 : 2 ≤ w := by
        rcases Nat.lt_or_ge w 2 with h' | h'
        · interval_cases w <;> omega
        · exact h'
      have hdiv : n / 10 < 10 ^ (w - 1) := by
        have : 10 ^ w = 10 ^ (w - 1) * 10 := by
          rw [← pow_succ]
          congr 1
          omega
        rw [Nat.div_lt_iff_lt_mul (by norm_num)]
        omega
      have := ih (n / 10) (w - 1) (by omega) hdiv (by omega)
      omega

theorem numDigits_le (n w : ℕ) (hw : 1 ≤ w) (h : n < 10 ^ w) : numDigits n ≤ w :=
  numDigitsAux_le n n w hw h le_rfl

/-- `foldl` with per-element append is `flatMap` after the initial list. -/
theorem foldl_append_flatMap {α β : Type} (g : α → List β) :
    ∀ (l : List α) (init : List β),
      l.foldl (fun acc x => acc ++ g x) init = init ++ l.flatMap g := by
  intro l
  induction l with
  | nil => simp
  | cons a l ih => intro init; simp [List.foldl_cons, ih, List.flatMap_cons]

/-! ## Concrete timestamp evaluations -/
theorem format_timestamp_eval (s : ℚ) (v : ℕ) (hs : 0 ≤ s) (hv : ⌊s * 1000⌋₊ = v) :
    format_timestamp s "srt" = some (msTimestampString v ",") ∧
    format_timestamp s "vtt" = some (msTimestampString v ".") := by
  have h := format_timestamp_eq_ms s hs
  rwa [hv] at h

theorem ts_eval_0_srt : format_timestamp 0 "srt" = some "00:00:00,000" := by
  rw [(format_timestamp_eval 0 0 le_rfl (by norm_num)).1]
  decide

theorem ts_eval_0_vtt : format_timestamp 0 "vtt" = some "00:00:00.000" := by
  rw [(format_timestamp_eval 0 0 le_rfl (by norm_num)).2]
  decide

theorem ts_eval_25_srt : format_timestamp 2.5 "srt" = some "00:00:02,500" := by
  rw [(format_timestamp_eval 2.5 2500 (by norm_num) (by norm_num)).1]
  decide

theorem ts_eval_25_vtt : format_timestamp 2.5 "vtt" = some "00:00:02.500" := by
  rw [(format_timestamp_eval 2.5 2500 (by norm_num) (by norm_num)).2]
  decide

theorem ts_eval_5_srt : format_timestamp 5 "srt" = some "00:00:05,000" := by
  rw [(format_timestamp_eval 5 5000 (by norm_num) (by norm_num)).1]
  decide

theorem ts_eval_5_vtt : format_timestamp 5 "vtt" = some "00:00:05.000" := by
  rw [(format_timestamp_eval 5 5000 (by norm_num) (by norm_num)).2]
  decide

theorem ts_eval_75_srt : format_timestamp 7.5 "srt" = some "00:00:07,500" := by
  rw [(format_timestamp_eval 7.5 7500 (by norm_num) (by norm_num)).1]
  decide

theorem ts_eval_75_vtt : format_timestamp 7.5 "vtt" = some "00:00:07.500" := by
  rw [(format_timestamp_eval 7.5 7500 (by norm_num) (by norm_num)).2]
  decide

theorem ts_eval_36615_srt : format_timestamp 3661.5 "srt" = some "01:01:01,500" := by
  rw [(format_timestamp_eval 3661.5 3661500 (by norm_num) (by norm_num)).1]
  decide

theorem ts_eval_36615_vtt : format_timestamp 3661.5 "vtt" = some "01:01:01.500" := by
  rw [(format_timestamp_eval 3661.5 3661500 (by norm_num) (by norm_num)).2]
  decide

/-- `generate_srt` on the spec's example, fully evaluated. -/
theorem generate_srt_example :
    generate_srt exampleResult
      = "1\n00:00:00,000 --> 00:00:02,500\nThis is a test\n\n2\n00:00:02,500 --> 00:00:05,000\ntranscription with\n\n3\n00:00:05,000 --> 00:00:07,500\nmultiple segments.\n" := by
  rw [generate_srt]
  simp only [exampleResult, List.foldl_cons, List.foldl_nil,
    ts_eval_0_srt, ts_eval_25_srt, ts_eval_5_srt, ts_eval_75_srt, Option.getD_some]
  decide

/-- `generate_vtt` on the spec's example, fully evaluated. -/
theorem generate_vtt_example :
    generate_vtt exampleResult
      = "WEBVTT\n\n00:00:00.000 --> 00:00:02.500\nThis is a test\n\n00:00:02.500 --> 00:00:05.000\ntranscription with\n\n00:00:05.000 --> 00:00:07.500\nmultiple segments.\n" := by
  rw [generate_vtt]
  simp only [exampleResult, List.foldl_cons, List.foldl_nil,
    ts_eval_0_vtt, ts_eval_25_vtt, ts_eval_5_vtt, ts_eval_75_vtt, Option.getD_some]
  decide

/-- **C1**: `generate_srt` emits, for each segment in order, the 1-based
sequence number (`segment.id + 1`) on its own line, then the
`HH:MM:SS,mmm --> HH:MM:SS,mmm` line, then the segment text, then a blank
line; on the spec's example the output starts with the exact prefix
`"1\n00:00:00,000 --> 00:00:02,500\nThis is a test\n"`. -/
theorem claim_C1_generate_srt :
    (∀ result : TranscriptionResult,
      generate_srt result = String.intercalate "\n"
        (result.segments.flatMap (fun segment =>
          [intStr (segment.id + 1),
           (format_timestamp segment.start "srt").getD "" ++ " --> "
             ++ (format_timestamp segment.«end» "srt").getD "",
           segment.text, ""]))) ∧
    ∃ rest, generate_srt exampleResult
      = "1\n00:00:00,000 --> 00:00:02,500\nThis is a test\n" ++ rest := by
  constructor
  · intro result
    rw [generate_srt]
    rw [foldl_append_flatMap (fun segment : Segment =>
      [intStr (segment.id + 1),
       (format_timestamp segment.start "srt").getD "" ++ " --> "
         ++ (format_timestamp segment.«end» "srt").getD "",
       segment.text, ""]) result.segments []]
    rw [List.nil_append]
  · refine ⟨"\n2\n00:00:02,500 --> 00:00:05,000\ntranscription with\n\n3\n00:00:05,000 --> 00:00:07,500\nmultiple segments.\n", ?_⟩
    rw [generate_srt_example]
    decide

/-- **C2**: `generate_vtt` begins with the literal `WEBVTT` header line and a
blank line, emits per segment only the timestamp line (no sequence numbers),
the text and a blank line, and for non-negative times the timestamp separator
before milliseconds is a period; on the spec's example the output starts with
the exact prefix `"WEBVTT\n\n00:00:00.000 --> 00:00:02.500\nThis is a test\n"`. -/
theorem claim_C2_generate_vtt :
    (∀ result : TranscriptionResult,
      generate_vtt result = String.intercalate "\n"
        (["WEBVTT", ""] ++ result.segments.flatMap (fun segment =>
          [(format_timestamp segment.start "vtt").getD "" ++ " --> "
             ++ (format_timestamp segment.«end» "vtt").getD "",
           segment.text, ""]))) ∧
    (∀ s : ℚ, 0 ≤ s →
      format_timestamp s "vtt" = some (msTimestampString ⌊s * 1000⌋₊ ".")) ∧
    ∃ rest, generate_vtt exampleResult
      = "WEBVTT\n\n00:00:00.000 --> 00:00:02.500\nThis is a test\n" ++ rest := by
  refine ⟨?_, ?_, ?_⟩
  · intro result
    rw [generate_vtt]
    rw [foldl_append_flatMap (fun segment : Segment =>
      [(format_timestamp segment.start "vtt").getD "" ++ " --> "
         ++ (format_timestamp segment.«end» "vtt").getD "",
       segment.text, ""]) result.segments ["WEBVTT", ""]]
  · intro s hs
    exact (format_timestamp_eq_ms s hs).2
  · refine ⟨"\n00:00:02.500 --> 00:00:05.000\ntranscription with\n\n00:00:05.000 --> 00:00:07.500\nmultiple segments.\n", ?_⟩
    rw [generate_vtt_example]
    decide

/-- Witness for the hypothesis-bearing part of C2, at `s = 0`. -/
theorem claim_C2_witness :
    (0 : ℚ) ≤ 0 ∧
    format_timestamp 0 "vtt" = some (msTimestampString ⌊(0 : ℚ) * 1000⌋₊ ".") :=
  ⟨le_rfl, claim_C2_generate_vtt.2.1 0 le_rfl⟩

theorem natFloor_eq_ms_div (s : ℚ) : ⌊s⌋₊ = ⌊s * 1000⌋₊ / 1000 := by
  rw [← natFloor_div_nat' (s * 1000) 1000]
  congr 1
  push_cast
  ring

/-- **C3**: for `s ≥ 0`, `_format_timestamp` floors `s` into hours, minutes
and integer seconds with `milliseconds = ⌊(s - ⌊s⌋) * 1000⌋`, zero-pads each
field (hours to at least two digits, unbounded above), and joins them with
`,` (SRT) or `.` (VTT) before the milliseconds; with the spec's concrete
values at `0` and `3661.5`. -/
theorem claim_C3_format_timestamp :
    (∀ s : ℚ, 0 ≤ s →
      format_timestamp s "srt" = some
        (natPad 2 ⌊s / 3600⌋₊ ++ ":" ++ natPad 2 (⌊s / 60⌋₊ % 60) ++ ":"
          ++ natPad 2 (⌊s⌋₊ % 60) ++ "," ++ natPad 3 ⌊(s - (⌊s⌋₊ : ℚ)) * 1000⌋₊) ∧
      format_timestamp s "vtt" = some
        (natPad 2 ⌊s / 3600⌋₊ ++ ":" ++ natPad 2 (⌊s / 60⌋₊ % 60) ++ ":"
          ++ natPad 2 (⌊s⌋₊ % 60) ++ "." ++ natPad 3 ⌊(s - (⌊s⌋₊ : ℚ)) * 1000⌋₊)) ∧
    format_timestamp 0 "srt" = some "00:00:00,000" ∧
    format_timestamp (3661.5 : ℚ) "srt" = some "01:01:01,500" ∧
    format_timestamp (3661.5 : ℚ) "vtt" = some "01:01:01.500" := by
  refine ⟨?_, ts_eval_0_srt, ts_eval_36615_srt, ts_eval_36615_vtt⟩
  intro s hs
  have h := format_timestamp_eq_ms s hs
  set v : ℕ := ⌊s * 1000⌋₊ with hv
  have hN : ⌊s⌋₊ = v / 1000 := by rw [hv]; exact natFloor_eq_ms_div s
  have ha : ⌊s / 3600⌋₊ = v / 3600000 := by
    rw [show (3600 : ℚ) = ((3600 : ℕ) : ℚ) by norm_num, natFloor_div_nat', hN]
    omega
  have hb : ⌊s / 60⌋₊ = v / 60000 := by
    rw [show (60 : ℚ) = ((60 : ℕ) : ℚ) by norm_num, natFloor_div_nat', hN]
    omega
  have hd : ⌊(s - (⌊s⌋₊ : ℚ)) * 1000⌋₊ = v % 1000 := by
    rw [show (s - (⌊s⌋₊ : ℚ)) * 1000 = s * 1000 - ((1000 * ⌊s⌋₊ : ℕ) : ℚ) by
        push_cast; ring,
      Nat.floor_sub_nat, ← hv, hN]
    omega
  constructor
  · rw [h.1, hd, ha, hb, hN]
    simp only [msTimestampString]
  · rw [h.2, hd, ha, hb, hN]
    simp only [msTimestampString]

/-! ## Lexicographic monotonicity of the timestamp strings (C6) -/
theorem padDigitsList_mod (w n : ℕ) : padDigitsList w (n % 10 ^ w) = padDigitsList w n := by
  induction w generalizing n with
  | zero => rfl
  | succ w ih =>
    rw [padDigitsList, padDigitsList]
    congr 1
    · congr 1
      rw [pow_succ, Nat.mod_mul_right_div_self]
      exact Nat.mod_mod_of_dvd _ (dvd_refl 10)
    · rw [← ih (n % 10 ^ (w + 1)), ← ih n]
      congr 1
      exact Nat.mod_mod_of_dvd n (pow_dvd_pow 10 (Nat.le_succ w))

theorem digitChar_lt_digitChar {d1 d2 : ℕ} (h1 : d1 < 10) (h2 : d2 < 10) (h : d1 < d2) :
    digitChar d1 < digitChar d2 := by
  have key : ∀ a, a < 10 → ∀ b, b < 10 → a < b → digitChar a < digitChar b := by decide
  exact key d1 h1 d2 h2 h

theorem padDigitsList_lex {w a b : ℕ} (hab : a < b) (hb : b < 10 ^ w) :
    List.Lex (· < ·) (padDigitsList w a) (padDigitsList w b) := by
  induction w generalizing a b with
  | zero =>
    rw [pow_zero] at hb
    omega
  | succ w ih =>
    have ha : a < 10 ^ (w + 1) := lt_trans hab hb
    have hpow : (0 : ℕ) < 10 ^ w := pow_pos (by norm_num) w
    have hda : a / 10 ^ w < 10 := by
      rw [Nat.div_lt_iff_lt_mul hpow]
      rw [pow_succ] at ha
      omega
    have hdb : b / 10 ^ w < 10 := by
      rw [Nat.div_lt_iff_lt_mul hpow]
      rw [pow_succ] at hb
      omega
    rw [padDigitsList, padDigitsList]
    rcases Nat.lt_or_ge (a / 10 ^ w) (b / 10 ^ w) with hlt | hge
    · refine List.Lex.rel ?_
      rw [Nat.mod_eq_of_lt hda, Nat.mod_eq_of_lt hdb]
      exact digitChar_lt_digitChar hda hdb hlt
    · have heq : a / 10 ^ w = b / 10 ^ w :=
        le_antisymm (Nat.div_le_div_right (le_of_lt hab)) hge
      have e1 := Nat.div_add_mod a (10 ^ w)
      have e2 := Nat.div_add_mod b (10 ^ w)
      rw [heq] at e1
      have hmod : a % 10 ^ w < b % 10 ^ w := by omega
      rw [heq]
      refine List.Lex.cons ?_
      rw [← padDigitsList_mod w a, ← padDigitsList_mod w b]
      exact ih hmod (Nat.mod_lt b hpow)

theorem lex_append_left :
    ∀ {l1 l2 : List Char}, List.Lex (· < ·) l1 l2 → l1.length = l2.length →
      ∀ r1 r2 : List Char, List.Lex (· < ·) (l1 ++ r1) (l2 ++ r2) := by
  intro l1 l2 h
  induction h with
  | nil => intro hlen; simp at hlen
  | rel hr => intro _ r1 r2; exact List.Lex.rel hr
  | cons h' ih => intro hlen r1 r2; exact List.Lex.cons (ih (by simpa using hlen) r1 r2)

theorem lex_append_same {r1 r2 : List Char} (l : List Char)
    (h : List.Lex (· < ·) r1 r2) : List.Lex (· < ·) (l ++ r1) (l ++ r2) := by
  induction l with
  | nil => simpa using h
  | cons a l ih => exact List.Lex.cons ih

theorem msTimestampString_data (v : ℕ) (sep : String) :
    (msTimestampString v sep).data
      = padDigitsList (max 2 (numDigits (v / 3600000))) (v / 3600000)
        ++ (':' :: (padDigitsList 2 (v / 60000 % 60)
        ++ (':' :: (padDigitsList 2 (v / 1000 % 60)
        ++ (sep.data ++ padDigitsList 3 (v % 1000)))))) := by
  have hB : numDigits (v / 60000 % 60) ≤ 2 :=
    numDigits_le _ 2 (by norm_num)
      (lt_of_lt_of_le (Nat.mod_lt _ (by norm_num)) (by norm_num))
  have hC : numDigits (v / 1000 % 60) ≤ 2 :=
    numDigits_le _ 2 (by norm_num)
      (lt_of_lt_of_le (Nat.mod_lt _ (by norm_num)) (by norm_num))
  have hD : numDigits (v % 1000) ≤ 3 :=
    numDigits_le _ 3 (by norm_num)
      (lt_of_lt_of_le (Nat.mod_lt _ (by norm_num)) (by norm_num))
  simp only [msTimestampString, natPad, String.data_append, asString_data,
    max_eq_left hB, max_eq_left hC, max_eq_left hD]
  simp [List.append_assoc]

theorem msTimestampString_le (sep : String) {v1 v2 : ℕ} (hle : v1 ≤ v2)
    (hd : numDigits (v1 / 3600000) = numDigits (v2 / 3600000)) :
    msTimestampString v1 sep ≤ msTimestampString v2 sep := by
  have key : (msTimestampString v1 sep).data = (msTimestampString v2 sep).data
      ∨ List.Lex (· < ·) (msTimestampString v1 sep).data (msTimestampString v2 sep).data := by
    rw [msTimestampString_data, msTimestampString_data]
    rcases Nat.lt_or_ge (v1 / 3600000) (v2 / 3600000) with hA | hA
    · right
      refine lex_append_left ?_ ?_ _ _
      · rw [hd]
        exact padDigitsList_lex hA
          (lt_of_lt_of_le (numDigits_lt _)
            (Nat.pow_le_pow_right (by norm_num) (le_max_right _ _)))
      · rw [padDigitsList_length, padDigitsList_length, hd]
    · have hA' : v1 / 3600000 = v2 / 3600000 :=
        le_antisymm (Nat.div_le_div_right hle) hA
      rw [hA']
      rcases Nat.lt_or_ge (v1 / 60000 % 60) (v2 / 60000 % 60) with hM | hM
      · right
        refine lex_append_same _ (List.Lex.cons ?_)
        refine lex_append_left ?_ ?_ _ _
        · exact padDigitsList_lex hM
            (lt_of_lt_of_le (Nat.mod_lt _ (by norm_num)) (by norm_num))
        · rw [padDigitsList_length, padDigitsList_length]
      · have hM' : v1 / 60000 % 60 = v2 / 60000 % 60 := by omega
        rw [hM']
        rcases Nat.lt_or_ge (v1 / 1000 % 60) (v2 / 1000 % 60) with hS | hS
        · right
          refine lex_append_same _ (List.Lex.cons (lex_append_same _ (List.Lex.cons ?_)))
          refine lex_append_left ?_ ?_ _ _
          · exact padDigitsList_lex hS
              (lt_of_lt_of_le (Nat.mod_lt _ (by norm_num)) (by norm_num))
          · rw [padDigitsList_length, padDigitsList_length]
        · have hS' : v1 / 1000 % 60 = v2 / 1000 % 60 := by omega
          rw [hS']
          rcases Nat.lt_or_ge (v1 % 1000) (v2 % 1000) with hD2 | hD2
          · right
            refine lex_append_same _ (List.Lex.cons (lex_append_same _
              (List.Lex.cons (lex_append_same _ ?_)))) 
            refine lex_append_same _ ?_
            exact padDigitsList_lex hD2
              (lt_of_lt_of_le (Nat.mod_lt _ (by norm_num)) (by norm_num))
          · have hD' : v1 % 1000 = v2 % 1000 := by omega
            rw [hD']
            left
            rfl
  rcases key with he | hlex
  · exact le_of_eq (String.ext he)
  · apply le_of_lt
    rw [String.lt_iff_toList_lt]
    exact hlex

theorem natFloor_3600_eq (s : ℚ) : ⌊s / 3600⌋₊ = ⌊s * 1000⌋₊ / 3600000 := by
  rw [show (3600 : ℚ) = ((3600 : ℕ) : ℚ) by norm_num, natFloor_div_nat',
    natFloor_eq_ms_div]
  omega

/-- **C6**: timestamp formatting is monotone: for `0 ≤ s1 < s2` whose hour
fields have the same number of decimal digits ("same hour scale"), the
formatted strings compare `≤` lexicographically, in both SRT and VTT modes. -/
theorem claim_C6_timestamp_monotone :
    ∀ s1 s2 : ℚ, 0 ≤ s1 → s1 < s2 →
      numDigits ⌊s1 / 3600⌋₊ = numDigits ⌊s2 / 3600⌋₊ →
      (format_timestamp s1 "srt").getD "" ≤ (format_timestamp s2 "srt").getD "" ∧
      (format_timestamp s1 "vtt").getD "" ≤ (format_timestamp s2 "vtt").getD "" := by
  intro s1 s2 hs1 hlt hdig
  have hs2 : 0 ≤ s2 := le_trans hs1 (le_of_lt hlt)
  have h1 := format_timestamp_eq_ms s1 hs1
  have h2 := format_timestamp_eq_ms s2 hs2
  have hv : ⌊s1 * 1000⌋₊ ≤ ⌊s2 * 1000⌋₊ :=
    Nat.floor_mono (mul_le_mul_of_nonneg_right (le_of_lt hlt) (by norm_num))
  have hdig' : numDigits (⌊s1 * 1000⌋₊ / 3600000) = numDigits (⌊s2 * 1000⌋₊ / 3600000) := by
    rw [natFloor_3600_eq s1, natFloor_3600_eq s2] at hdig
    exact hdig
  rw [h1.1, h1.2, h2.1, h2.2]
  simp only [Option.getD_some]
  exact ⟨msTimestampString_le "," hv hdig', msTimestampString_le "." hv hdig'⟩

/-- Witness for C6 at `s1 = 0`, `s2 = 1`. -/
theorem claim_C6_witness :
    (0 : ℚ) ≤ 0 ∧ (0 : ℚ) < 1 ∧
    numDigits ⌊(0 : ℚ) / 3600⌋₊ = numDigits ⌊(1 : ℚ) / 3600⌋₊ ∧
    ((format_timestamp 0 "srt").getD "" ≤ (format_timestamp 1 "srt").getD "" ∧
     (format_timestamp 0 "vtt").getD "" ≤ (format_timestamp 1 "vtt").getD "") := by
  have hdig : numDigits ⌊(0 : ℚ) / 3600⌋₊ = numDigits ⌊(1 : ℚ) / 3600⌋₊ := by
    rw [show ⌊(0 : ℚ) / 3600⌋₊ = 0 by simp,
      show ⌊(1 : ℚ) / 3600⌋₊ = 0 by rw [Nat.floor_eq_zero]; norm_num]
  exact ⟨le_rfl, zero_lt_one, hdig, claim_C6_timestamp_monotone 0 1 le_rfl zero_lt_one hdig⟩

/-- Witness for the hypothesis-bearing universal part of C3, at `s = 0`. -/
theorem claim_C3_witness :
    (0 : ℚ) ≤ 0 ∧
    (format_timestamp 0 "srt" = some
      (natPad 2 ⌊(0 : ℚ) / 3600⌋₊ ++ ":" ++ natPad 2 (⌊(0 : ℚ) / 60⌋₊ % 60) ++ ":"
        ++ natPad 2 (⌊(0 : ℚ)⌋₊ % 60) ++ "," ++ natPad 3 ⌊((0 : ℚ) - (⌊(0 : ℚ)⌋₊ : ℚ)) * 1000⌋₊) ∧
     format_timestamp 0 "vtt" = some
      (natPad 2 ⌊(0 : ℚ) / 3600⌋₊ ++ ":" ++ natPad 2 (⌊(0 : ℚ) / 60⌋₊ % 60) ++ ":"
        ++ natPad 2 (⌊(0 : ℚ)⌋₊ % 60) ++ "." ++ natPad 3 ⌊((0 : ℚ) - (⌊(0 : ℚ)⌋₊ : ℚ)) * 1000⌋₊)) :=
  ⟨le_rfl, claim_C3_format_timestamp.1 0 le_rfl⟩

/-- **C7**: `preprocess_audio` always yields one channel at 16 kHz (pydub
segments have at least one channel), and is idempotent: a second application
takes neither branch and returns its input unchanged.  The pydub primitives
are constrained exactly by their contracts: `set_channels`/`set_frame_rate`
set their field and leave the other untouched. -/
theorem claim_C7_preprocess_idempotent :
    ∀ (set_channels set_frame_rate : AudioSegment → ℕ → AudioSegment),
      (∀ a n, (set_channels a n).channels = n) →
      (∀ a n, (set_channels a n).frame_rate = a.frame_rate) →
      (∀ a r, (set_frame_rate a r).frame_rate = r) →
      (∀ a r, (set_frame_rate a r).channels = a.channels) →
      ∀ audio : AudioSegment, 1 ≤ audio.channels →
        (preprocess_audio set_channels set_frame_rate audio).channels = 1 ∧
        (preprocess_audio set_channels set_frame_rate audio).frame_rate = SAMPLE_RATE ∧
        preprocess_audio set_channels set_frame_rate
            (preprocess_audio set_channels set_frame_rate audio)
          = preprocess_audio set_channels set_frame_rate audio := by
  intro sc sfr hc1 hc2 hf1 hf2 audio hch
  have hres : (preprocess_audio sc sfr audio).channels = 1 ∧
      (preprocess_audio sc sfr audio).frame_rate = SAMPLE_RATE := by
    rw [preprocess_audio]
    by_cases h1 : audio.channels > 1
    · rw [if_pos h1]
      by_cases h2 : (sc audio 1).frame_rate ≠ SAMPLE_RATE
      · rw [if_pos h2]
        exact ⟨by rw [hf2, hc1], by rw [hf1]⟩
      · rw [if_neg h2]
        exact ⟨by rw [hc1], not_not.mp h2⟩
    · rw [if_neg h1]
      have hch1 : audio.channels = 1 := by omega
      by_cases h2 : audio.frame_rate ≠ SAMPLE_RATE
      · rw [if_pos h2]
        exact ⟨by rw [hf2, hch1], by rw [hf1]⟩
      · rw [if_neg h2]
        exact ⟨hch1, not_not.mp h2⟩
  have hid : ∀ b : AudioSegment, b.channels = 1 → b.frame_rate = SAMPLE_RATE →
      preprocess_audio sc sfr b = b := by
    intro b h1 h2
    rw [preprocess_audio]
    simp [h1, h2]
  exact ⟨hres.1, hres.2, hid _ hres.1 hres.2⟩

/-- Witness for C7: a stereo 44.1 kHz segment under the model primitives. -/
theorem claim_C7_witness :
    (∀ a n, (setChannelsModel a n).channels = n) ∧
    (∀ a n, (setChannelsModel a n).frame_rate = a.frame_rate) ∧
    (∀ a r, (setFrameRateModel a r).frame_rate = r) ∧
    (∀ a r, (setFrameRateModel a r).channels = a.channels) ∧
    1 ≤ (AudioSegment.mk 2 44100 2 []).channels ∧
    ((preprocess_audio setChannelsModel setFrameRateModel
        (AudioSegment.mk 2 44100 2 [])).channels = 1 ∧
      (preprocess_audio setChannelsModel setFrameRateModel
        (AudioSegment.mk 2 44100 2 [])).frame_rate = SAMPLE_RATE ∧
      preprocess_audio setChannelsModel setFrameRateModel
          (preprocess_audio setChannelsModel setFrameRateModel
            (AudioSegment.mk 2 44100 2 []))
        = preprocess_audio setChannelsModel setFrameRateModel
            (AudioSegment.mk 2 44100 2 [])) :=
  ⟨fun _ _ => rfl, fun _ _ => rfl, fun _ _ => rfl, fun _ _ => rfl, by decide,
    claim_C7_preprocess_idempotent setChannelsModel setFrameRateModel
      (fun _ _ => rfl) (fun _ _ => rfl) (fun _ _ => rfl) (fun _ _ => rfl)
      (AudioSegment.mk 2 44100 2 []) (by decide)⟩

/-- **C8**: for samples within the signed range of the declared bit depth,
`get_audio_array` divides each sample by `2^(bits-1)`; every output lies in
`[-1, 1]`, and the most negative representable sample maps exactly to `-1`. -/
theorem claim_C8_get_audio_array :
    ∀ audio : AudioSegment, 1 ≤ audio.sample_width →
      (∀ v ∈ audio.samples,
        -(2 ^ (8 * audio.sample_width - 1) : ℤ) ≤ v ∧
          v ≤ 2 ^ (8 * audio.sample_width - 1) - 1) →
      get_audio_array audio = audio.samples.map
          (fun v : ℤ => (v : ℚ) / (2 : ℚ) ^ (8 * audio.sample_width - 1)) ∧
      (∀ x ∈ get_audio_array audio, -1 ≤ x ∧ x ≤ 1) ∧
      get_audio_array (AudioSegment.mk audio.channels audio.frame_rate
          audio.sample_width [-(2 ^ (8 * audio.sample_width - 1))])
        = [-1] := by
  intro audio hw hbounds
  have hfun : ∀ v : ℤ, (v : ℚ) / ((1 <<< (8 * audio.sample_width - 1) : ℕ) : ℚ)
      = (v : ℚ) / (2 : ℚ) ^ (8 * audio.sample_width - 1) := by
    intro v
    congr 1
    rw [Nat.one_shiftLeft]
    push_cast
    ring
  have hkpos : (0 : ℚ) < 2 ^ (8 * audio.sample_width - 1) := by positivity
  have hmapAll : ∀ b : AudioSegment, b.sample_width = audio.sample_width →
      get_audio_array b = b.samples.map
        (fun v : ℤ => (v : ℚ) / (2 : ℚ) ^ (8 * audio.sample_width - 1)) := by
    intro b hb
    rw [get_audio_array, hb]
    simp only [hfun]
  refine ⟨hmapAll audio rfl, ?_, ?_⟩
  · intro x hx
    rw [hmapAll audio rfl] at hx
    rcases List.mem_map.mp hx with ⟨v, hv, rfl⟩
    rcases hbounds v hv with ⟨hlo, hhi⟩
    have hlo2 : -((2 : ℚ) ^ (8 * audio.sample_width - 1)) ≤ (v : ℚ) := by
      exact_mod_cast hlo
    have hhi2 : (v : ℚ) ≤ (2 : ℚ) ^ (8 * audio.sample_width - 1) - 1 := by
      exact_mod_cast hhi
    constructor
    · rw [le_div_iff hkpos]
      linarith
    · rw [div_le_one hkpos]
      linarith
  · rw [hmapAll (AudioSegment.mk audio.channels audio.frame_rate
      audio.sample_width [-(2 ^ (8 * audio.sample_width - 1))]) rfl]
    simp only [List.map_cons, List.map_nil]
    rw [show ((-(2 ^ (8 * audio.sample_width - 1)) : ℤ) : ℚ)
        = -((2 : ℚ) ^ (8 * audio.sample_width - 1)) by push_cast; ring]
    rw [neg_div, div_self (ne_of_gt hkpos)]

/-- Witness for C8: 16-bit samples at the boundary values. -/
theorem claim_C8_witness :
    1 ≤ (AudioSegment.mk 1 16000 2 [-32768, 0, 32767]).sample_width ∧
    (∀ v ∈ (AudioSegment.mk 1 16000 2 [-32768, 0, 32767]).samples,
      -(2 ^ (8 * (AudioSegment.mk 1 16000 2 [-32768, 0, 32767]).sample_width - 1) : ℤ) ≤ v ∧
        v ≤ 2 ^ (8 * (AudioSegment.mk 1 16000 2 [-32768, 0, 32767]).sample_width - 1) - 1) ∧
    (∀ x ∈ get_audio_array (AudioSegment.mk 1 16000 2 [-32768, 0, 32767]),
      -1 ≤ x ∧ x ≤ 1) :=
  ⟨by decide, by decide,
    (claim_C8_get_audio_array (AudioSegment.mk 1 16000 2 [-32768, 0, 32767])
      (by decide) (by decide)).2.1⟩

/-- **C9**: `transcribe` fails with the invalid-task `ValueError` iff `task`
is neither `"transcribe"` nor `"translate"`, and in that case the check runs
before the model is loaded: the transcriber state is returned unchanged. -/
theorem claim_C9_transcribe_task_validation :
    ∀ {Model α : Type}
      (loadModel : String → Option String → Except String Model)
      (engine : Model → α → Option String → String → Except String RawResult)
      (t : WhisperTranscriber Model) (audio : α)
      (language : Option String) (task : String),
      ((∃ task', (transcribe loadModel engine t audio language task).1
          = .error (.invalidTask task')) ↔ task ∉ ["transcribe", "translate"]) ∧
      (task ∉ ["transcribe", "translate"] →
        transcribe loadModel engine t audio language task
          = (.error (.invalidTask task), t)) := by
  intro Model α loadModel engine t audio language task
  by_cases hmem : task ∉ ["transcribe", "translate"]
  · refine ⟨⟨fun _ => hmem, fun _ => ⟨task, ?_⟩⟩, fun _ => ?_⟩ <;>
      rw [transcribe, if_pos hmem]
  · constructor
    · constructor
      · rintro ⟨task', htask'⟩
        rw [transcribe, if_neg hmem] at htask'
        exfalso
        rcases hload : load_model loadModel t with e | mt1
        · rw [hload] at htask'
          simp at htask'
        · rw [hload] at htask'
          obtain ⟨m, t1⟩ := mt1
          dsimp only at htask'
          rcases heng : engine m audio language task with e | raw <;>
            rw [heng] at htask' <;> simp at htask'
      · intro h
        exact absurd h hmem
    · intro h
      exact absurd h hmem

/-- Witness for C9 at the concrete invalid task `"summarize"`. -/
theorem claim_C9_witness :
    ("summarize" ∉ ["transcribe", "translate"]) ∧
    @transcribe Unit Unit (fun _ _ => .ok ())
        (fun _ _ _ _ => .ok ⟨"", [], "en"⟩)
        ⟨"small", none, none⟩ () none "summarize"
      = (.error (.invalidTask "summarize"), ⟨"small", none, none⟩) :=
  ⟨by decide,
    (claim_C9_transcribe_task_validation (fun _ _ => .ok ())
      (fun _ _ _ _ => .ok ⟨"", [], "en"⟩)
      ⟨"small", none, none⟩ () none "summarize").2 (by decide)⟩

/-! ## Round-trip lemmas: strings -/
theorem hexVal_hexDigitChar (n : ℕ) (h : n < 16) : hexVal (hexDigitChar n) = some n := by
  have key : ∀ m, m < 16 → hexVal (hexDigitChar m) = some m := by decide
  exact key n h

theorem escapeChar_length (c : Char) : 1 ≤ (escapeChar c).length := by
  rw [escapeChar]
  split_ifs <;> simp

theorem escape_length (l : List Char) : l.length ≤ (l.flatMap escapeChar).length := by
  induction l with
  | nil => simp
  | cons c l ih =>
    rw [List.flatMap_cons, List.length_append, List.length_cons]
    have := escapeChar_length c
    omega

theorem parseStringBody_escape :
    ∀ (l rest : List Char) (fuel : ℕ), l.length < fuel →
      parseStringBody fuel (l.flatMap escapeChar ++ ('"' :: rest)) = some (l, rest) := by
  intro l
  induction l with
  | nil =>
    intro rest fuel hf
    obtain ⟨f, rfl⟩ : ∃ f, fuel = f + 1 := ⟨fuel - 1, by omega⟩
    simp [parseStringBody]
  | cons c l ih =>
    intro rest fuel hf
    obtain ⟨f, rfl⟩ : ∃ f, fuel = f + 1 := ⟨fuel - 1, by omega⟩
    have hfl : l.length < f := by
      simp only [List.length_cons] at hf
      omega
    rw [List.flatMap_cons, List.append_assoc]
    by_cases h1 : c = '"'
    · subst h1
      rw [show escapeChar '"' = ['\\', '"'] from rfl]
      simp only [List.cons_append, List.nil_append]
      rw [parseStringBody]
      simp [ih _ _ hfl]
    · by_cases h2 : c = '\\'
      · subst h2
        rw [show escapeChar '\\' = ['\\', '\\'] from rfl]
        simp only [List.cons_append, List.nil_append]
        rw [parseStringBody]
        simp [ih _ _ hfl]
      · by_cases h3 : c = '\n'
        · subst h3
          rw [show escapeChar '\n' = ['\\', 'n'] from rfl]
          simp only [List.cons_append, List.nil_append]
          rw [parseStringBody]
          simp [ih _ _ hfl]
        · by_cases h4 : c = '\t'
          · subst h4
            rw [show escapeChar '\t' = ['\\', 't'] from rfl]
            simp only [List.cons_append, List.nil_append]
            rw [parseStringBody]
            simp [ih _ _ hfl]
          · by_cases h5 : c = '\r'
            · subst h5
              rw [show escapeChar '\r' = ['\\', 'r'] from rfl]
              simp only [List.cons_append, List.nil_append]
              rw [parseStringBody]
              simp [ih _ _ hfl]
            · by_cases h6 : c = Char.ofNat 8
              · subst h6
                rw [show escapeChar (Char.ofNat 8) = ['\\', 'b'] from by decide]
                simp only [List.cons_append, List.nil_append]
                rw [parseStringBody]
                simp [ih _ _ hfl]
              · by_cases h7 : c = Char.ofNat 12
                · subst h7
                  rw [show escapeChar (Char.ofNat 12) = ['\\', 'f'] from by decide]
                  simp only [List.cons_append, List.nil_append]
                  rw [parseStringBody]
                  simp [ih _ _ hfl]
                · by_cases h8 : c.toNat < 32
                  · have hesc : escapeChar c = ['\\', 'u', '0', '0',
                        hexDigitChar (c.toNat / 16), hexDigitChar (c.toNat % 16)] := by
                      rw [escapeChar]
                      simp [h1, h2, h3, h4, h5, h6, h7, h8]
                    rw [hesc]
                    simp only [List.cons_append, List.nil_append]
                    have hph : parseHex4 ('0' :: '0' :: hexDigitChar (c.toNat / 16)
                        :: hexDigitChar (c.toNat % 16)
                        :: (l.flatMap escapeChar ++ '"' :: rest))
                        = some (c, l.flatMap escapeChar ++ '"' :: rest) := by
                      rw [parseHex4]
                      rw [show hexVal '0' = some 0 from rfl,
                        hexVal_hexDigitChar _ (show c.toNat / 16 < 16 by omega),
                        hexVal_hexDigitChar _ (show c.toNat % 16 < 16 by omega)]
                      simp
                      rw [show c.toNat / 16 * 16 + c.toNat % 16 = c.toNat by omega,
                        Char.ofNat_toNat]
                    rw [parseStringBody]
                    simp [hph, ih _ _ hfl]
                  · have hesc : escapeChar c = [c] := by
                      rw [escapeChar]
                      simp [h1, h2, h3, h4, h5, h6, h7, h8]
                    rw [hesc]
                    simp only [List.cons_append, List.nil_append]
                    rw [parseStringBody.eq_def]
                    simp [h1, h2, ih _ _ hfl]

theorem string_asString_data (s : String) : s.data.asString = s := rfl

theorem parseStringBody_encode (s : String) (rest : List Char) :
    parseStringBody ((s.data.flatMap escapeChar ++ ('"' :: rest)).length + 1)
        (s.data.flatMap escapeChar ++ ('"' :: rest)) = some (s.data, rest) := by
  apply parseStringBody_escape
  have h1 := escape_length s.data
  simp only [List.length_append, List.length_cons]
  omega

/-! ## Round-trip lemmas: numbers -/
theorem takeWhile_all_append {p : Char → Bool} :
    ∀ (l1 l2 : List Char), (∀ c ∈ l1, p c = true) →
      (∀ c, l2.head? = some c → p c = false) →
      (l1 ++ l2).takeWhile p = l1 ∧ (l1 ++ l2).dropWhile p = l2 := by
  intro l1
  induction l1 with
  | nil =>
    intro l2 _ h2
    cases l2 with
    | nil => exact ⟨rfl, rfl⟩
    | cons c l =>
      constructor
      · simp [List.takeWhile_cons, h2 c rfl]
      · simp [List.dropWhile_cons, h2 c rfl]
  | cons a l1 ih =>
    intro l2 h1 h2
    have ha : p a = true := h1 a (by simp)
    have hrest := ih l2 (fun c hc => h1 c (by simp [hc])) h2
    constructor
    · simp [List.takeWhile_cons, ha, hrest.1]
    · simp [List.dropWhile_cons, ha, hrest.2]

theorem isNumChar_not_ws (c : Char) (h : isNumChar c = true) : isWsChar c = false := by
  rcases hw : isWsChar c with _ | _
  · rfl
  · exfalso
    rw [isWsChar] at hw
    simp only [Bool.or_eq_true, decide_eq_true_eq] at hw
    rcases hw with ((h1 | h1) | h1) | h1 <;> subst h1 <;> exact absurd h (by decide)

theorem skipWs_cons_not_ws {c : Char} (l : List Char) (h : isWsChar c = false) :
    skipWs (c :: l) = c :: l := by
  simp [skipWs, List.dropWhile_cons, h]

theorem parseValue_num (numRepr : ℚ → String) (q : ℚ) (hq : goodNumRepr numRepr q)
    (rest : List Char) (hrest : ∀ c, rest.head? = some c → isNumChar c = false)
    (fuel : ℕ) (hf : 1 ≤ fuel) :
    parseValue fuel ((numRepr q).data ++ rest) = some (Json.num q, rest) := by
  obtain ⟨f, rfl⟩ : ∃ f, fuel = f + 1 := ⟨fuel - 1, by omega⟩
  obtain ⟨hne, hall, hparse⟩ := hq
  obtain ⟨c0, l0, hdata⟩ : ∃ c0 l0, (numRepr q).data = c0 :: l0 := by
    cases hd : (numRepr q).data with
    | nil => exact absurd hd hne
    | cons a b => exact ⟨a, b, rfl⟩
  rw [hdata, List.cons_append]
  have hc0 : isNumChar c0 = true := by
    apply hall
    rw [hdata]
    simp
  rw [parseValue]
  rw [skipWs_cons_not_ws _ (isNumChar_not_ws c0 hc0)]
  have h1 : ¬ c0 = '"' := fun h => absurd hc0 (by rw [h]; decide)
  have h2 : ¬ c0 = '[' := fun h => absurd hc0 (by rw [h]; decide)
  have h3 : ¬ c0 = '{' := fun h => absurd hc0 (by rw [h]; decide)
  obtain ⟨hta1, hta2⟩ := takeWhile_all_append (c0 :: l0) rest
    (by rw [← hdata]; exact hall) hrest
  rw [List.cons_append] at hta1 hta2
  simp only [h1, h2, h3, if_false, hc0, if_true, hta1, hta2]
  rw [← hdata, hparse]
  rfl

/-! ## Round-trip lemmas: integer ids via `intStr` -/
theorem numDigitsAux_pos (fuel n : ℕ) : 1 ≤ numDigitsAux fuel n := by
  cases fuel with
  | zero => exact le_refl 1
  | succ f =>
    rw [numDigitsAux]
    split <;> omega

theorem numDigits_pos (n : ℕ) : 1 ≤ numDigits n := numDigitsAux_pos n n

theorem digitChar_toNat (d : ℕ) (h : d < 10) : (digitChar d).toNat = 48 + d := by
  have key : ∀ m, m < 10 → (digitChar m).toNat = 48 + m := by decide
  exact key d h

theorem padDigitsList_all_digits (w : ℕ) :
    ∀ (n : ℕ), ∀ c ∈ padDigitsList w n, Char.isDigit c = true := by
  induction w with
  | zero => intro n c hc; simp [padDigitsList] at hc
  | succ w ih =>
    intro n c hc
    rw [padDigitsList] at hc
    rcases List.mem_cons.mp hc with h | h
    · subst h
      have hd : n / 10 ^ w % 10 < 10 := Nat.mod_lt _ (by norm_num)
      have key : ∀ m, m < 10 → Char.isDigit (digitChar m) = true := by decide
      exact key _ hd
    · exact ih n c h

theorem digitsToNat_pad (w : ℕ) : ∀ (n acc : ℕ), n < 10 ^ w →
    digitsToNat (padDigitsList w n) acc = acc * 10 ^ w + n := by
  induction w with
  | zero =>
    intro n acc h
    rw [pow_zero] at h
    interval_cases n
    show acc = acc * 10 ^ 0 + 0
    rw [pow_zero]
    omega
  | succ w ih =>
    intro n acc h
    rw [padDigitsList, digitsToNat]
    have hd : n / 10 ^ w % 10 < 10 := Nat.mod_lt _ (by norm_num)
    rw [digitChar_toNat _ hd,
      show acc * 10 + (48 + n / 10 ^ w % 10 - 48) = acc * 10 + n / 10 ^ w % 10 by omega]
    rw [← padDigitsList_mod w n,
      ih (n % 10 ^ w) _ (Nat.mod_lt _ (pow_pos (by norm_num) w))]
    have h10 : n / 10 ^ w < 10 := by
      rw [Nat.div_lt_iff_lt_mul (pow_pos (by norm_num) w)]
      rw [pow_succ] at h
      omega
    rw [Nat.mod_eq_of_lt h10, pow_succ]
    have e := Nat.div_add_mod n (10 ^ w)
    calc (acc * 10 + n / 10 ^ w) * 10 ^ w + n % 10 ^ w
        = acc * (10 ^ w * 10) + (10 ^ w * (n / 10 ^ w) + n % 10 ^ w) := by ring
      _ = acc * (10 ^ w * 10) + n := by rw [e]

theorem isDigit_isNumChar (c : Char) (h : Char.isDigit c = true) : isNumChar c = true := by
  rw [isNumChar, h]
  rfl

theorem parseUnsigned_digits (l : List Char) (hne : l ≠ [])
    (hdig : ∀ c ∈ l, Char.isDigit c = true) :
    parseUnsigned l = some ((digitsToNat l 0 : ℕ) : ℚ) := by
  rw [parseUnsigned]
  have h := takeWhile_all_append l [] hdig (by intro c hc; simp at hc)
  rw [List.append_nil] at h
  have hemp : l.isEmpty = false := by
    cases l with
    | nil => exact absurd rfl hne
    | cons a b => rfl
  simp only [h.1, h.2, hemp]
  rfl

theorem intStr_goodNum (i : ℤ) :
    (intStr i).data ≠ [] ∧ (∀ c ∈ (intStr i).data, isNumChar c = true) ∧
      parseNumToken (intStr i).data = some (i : ℚ) := by
  by_cases hneg : i < 0
  · rw [intStr, intPad, if_pos hneg]
    have hd : (natPad (1 - 1) i.natAbs).data
        = padDigitsList (numDigits i.natAbs) i.natAbs := by
      rw [natPad, asString_data, max_eq_right (by omega : 1 - 1 ≤ numDigits i.natAbs)]
    rw [String.data_append, show ("-" : String).data = ['-'] from rfl, hd,
      List.singleton_append]
    have hlen : (padDigitsList (numDigits i.natAbs) i.natAbs).length
        = numDigits i.natAbs := padDigitsList_length _ _
    have hne2 : padDigitsList (numDigits i.natAbs) i.natAbs ≠ [] := by
      intro hc
      rw [hc] at hlen
      have := numDigits_pos i.natAbs
      simp at hlen
      omega
    refine ⟨by simp, ?_, ?_⟩
    · intro c hc
      rcases List.mem_cons.mp hc with h | h
      · subst h; decide
      · exact isDigit_isNumChar c (padDigitsList_all_digits _ _ c h)
    · rw [parseNumToken]
      simp only [reduceIte]
      rw [parseUnsigned_digits _ hne2 (padDigitsList_all_digits _ _),
        digitsToNat_pad _ _ _ (numDigits_lt _)]
      have habs : ((i.natAbs : ℕ) : ℚ) = -(i : ℚ) := by
        obtain ⟨m, rfl⟩ : ∃ m : ℕ, i = -(m : ℤ) := ⟨i.natAbs, by omega⟩
        rw [show (-(m : ℤ)).natAbs = m by omega]
        push_cast
        ring
      simp [habs]
  · push_neg at hneg
    rw [intStr, intPad, if_neg (not_lt.mpr hneg)]
    rw [natPad, asString_data, max_eq_right (numDigits_pos i.toNat)]
    have hlen : (padDigitsList (numDigits i.toNat) i.toNat).length
        = numDigits i.toNat := padDigitsList_length _ _
    have hne2 : padDigitsList (numDigits i.toNat) i.toNat ≠ [] := by
      intro hc
      rw [hc] at hlen
      have := numDigits_pos i.toNat
      simp at hlen
      omega
    obtain ⟨c0, l0, hdata⟩ : ∃ c0 l0,
        padDigitsList (numDigits i.toNat) i.toNat = c0 :: l0 := by
      cases hd : padDigitsList (numDigits i.toNat) i.toNat with
      | nil => exact absurd hd hne2
      | cons a b => exact ⟨a, b, rfl⟩
    refine ⟨by rw [hdata]; simp, ?_, ?_⟩
    · intro c hc
      exact isDigit_isNumChar c (padDigitsList_all_digits _ _ c hc)
    · have hc0 : Char.isDigit c0 = true := by
        apply padDigitsList_all_digits _ _ c0
        rw [hdata]
        simp
      have hc0ne : ¬ c0 = '-' := fun h => absurd hc0 (by rw [h]; decide)
      rw [hdata, parseNumToken]
      simp only [hc0ne, if_false]
      rw [← hdata,
        parseUnsigned_digits _ hne2 (padDigitsList_all_digits _ _),
        digitsToNat_pad _ _ _ (numDigits_lt _)]
      simp only [zero_mul, zero_add]
      congr 1
      have ht : ((i.toNat : ℕ) : ℤ) = i := Int.toNat_of_nonneg hneg
      exact_mod_cast congrArg (fun z : ℤ => (z : ℚ)) ht

/-! ## Parser step lemmas -/
theorem parseValue_cons_ws {c : Char} (l : List Char) (h : isWsChar c = true)
    (fuel : ℕ) :
    parseValue fuel (c :: l) = parseValue fuel l := by
  cases fuel with
  | zero => rfl
  | succ f =>
    rw [parseValue, parseValue,
      show skipWs (c :: l) = skipWs l from by simp [skipWs, List.dropWhile_cons, h]]

theorem parseValue_wsLead (pre : List Char) (h : ∀ c ∈ pre, isWsChar c = true)
    (x : List Char) (fuel : ℕ) :
    parseValue fuel (pre ++ x) = parseValue fuel x := by
  induction pre with
  | nil => rfl
  | cons c l ih =>
    rw [List.cons_append, parseValue_cons_ws _ (h c (by simp))]
    exact ih (fun c hc => h c (by simp [hc]))

theorem parseFields_cons_ws {c : Char} (l : List Char) (h : isWsChar c = true)
    (fuel : ℕ) :
    parseFields fuel (c :: l) = parseFields fuel l := by
  cases fuel with
  | zero => rfl
  | succ f =>
    rw [parseFields, parseFields,
      show skipWs (c :: l) = skipWs l from by simp [skipWs, List.dropWhile_cons, h]]

theorem parseItems_wsLead (pre : List Char) (h : ∀ c ∈ pre, isWsChar c = true)
    (x : List Char) (fuel : ℕ) :
    parseItems fuel (pre ++ x) = parseItems fuel x := by
  cases fuel with
  | zero => rfl
  | succ f =>
    rw [parseItems, parseItems, parseValue_wsLead pre h x f]

theorem parseValue_str_gen (f : ℕ) (cs X content rest2 : List Char)
    (h1 : skipWs cs = '"' :: X)
    (h2 : parseStringBody (X.length + 1) X = some (content, rest2)) :
    parseValue (f + 1) cs = some (Json.str content.asString, rest2) := by
  rw [parseValue, h1]
  simp [h2]

theorem parseValue_str (s : String) (rest : List Char) (fuel : ℕ) (hf : 1 ≤ fuel) :
    parseValue fuel ((encodeString s).data ++ rest) = some (Json.str s, rest) := by
  obtain ⟨f, rfl⟩ : ∃ f, fuel = f + 1 := ⟨fuel - 1, by omega⟩
  have h1 : skipWs ((encodeString s).data ++ rest)
      = '"' :: (s.data.flatMap escapeChar ++ ('"' :: rest)) := by
    rw [encodeString, asString_data, List.cons_append,
      skipWs_cons_not_ws _ (by decide : isWsChar '"' = false),
      List.append_assoc, List.singleton_append]
  have h2 := parseStringBody_escape s.data rest
    ((s.data.flatMap escapeChar ++ ('"' :: rest)).length + 1)
    (by
      have := escape_length s.data
      simp only [List.length_append, List.length_cons]
      omega)
  have h3 := parseValue_str_gen f _ _ _ _ h1 h2
  rwa [string_asString_data] at h3

theorem parseValue_numlike (d : List Char) (q : ℚ) (hne : d ≠ [])
    (hall : ∀ c ∈ d, isNumChar c = true) (hparse : parseNumToken d = some q)
    (rest : List Char) (hrest : ∀ c, rest.head? = some c → isNumChar c = false)
    (fuel : ℕ) (hf : 1 ≤ fuel) :
    parseValue fuel (d ++ rest) = some (Json.num q, rest) := by
  obtain ⟨f, rfl⟩ : ∃ f, fuel = f + 1 := ⟨fuel - 1, by omega⟩
  obtain ⟨c0, l0, hdata⟩ : ∃ c0 l0, d = c0 :: l0 := by
    cases hd : d with
    | nil => exact absurd hd hne
    | cons a b => exact ⟨a, b, rfl⟩
  subst hdata
  rw [List.cons_append]
  have hc0 : isNumChar c0 = true := hall c0 (by simp)
  rw [parseValue, skipWs_cons_not_ws _ (isNumChar_not_ws c0 hc0)]
  have h1 : ¬ c0 = '"' := fun h => absurd hc0 (by rw [h]; decide)
  have h2 : ¬ c0 = '[' := fun h => absurd hc0 (by rw [h]; decide)
  have h3 : ¬ c0 = '{' := fun h => absurd hc0 (by rw [h]; decide)
  obtain ⟨hta1, hta2⟩ := takeWhile_all_append (c0 :: l0) rest hall hrest
  rw [List.cons_append] at hta1 hta2
  simp only [h1, h2, h3, if_false, hc0, if_true, hta1, hta2]
  rw [hparse]
  rfl

theorem parseValue_intStr (i : ℤ) (rest : List Char)
    (hrest : ∀ c, rest.head? = some c → isNumChar c = false)
    (fuel : ℕ) (hf : 1 ≤ fuel) :
    parseValue fuel ((intStr i).data ++ rest) = some (Json.num (i : ℚ), rest) := by
  obtain ⟨hne, hall, hparse⟩ := intStr_goodNum i
  exact parseValue_numlike _ _ hne hall hparse rest hrest fuel hf

theorem parseValue_good (numRepr : ℚ → String) (q : ℚ) (hq : goodNumRepr numRepr q)
    (rest : List Char) (hrest : ∀ c, rest.head? = some c → isNumChar c = false)
    (fuel : ℕ) (hf : 1 ≤ fuel) :
    parseValue fuel ((numRepr q).data ++ rest) = some (Json.num q, rest) := by
  obtain ⟨hne, hall, hparse⟩ := hq
  exact parseValue_numlike _ _ hne hall hparse rest hrest fuel hf

theorem parseValue_obj_step (f : ℕ) (cs after X : List Char)
    (h1 : skipWs cs = '{' :: after) (h2 : skipWs after = '"' :: X)
    (fields : List (String × Json)) (rest : List Char)
    (h3 : parseFields f ('"' :: X) = some (fields, rest)) :
    parseValue (f + 1) cs = some (Json.obj fields, rest) := by
  rw [parseValue, h1]
  simp [h2, h3]

theorem parseValue_arr_step (f : ℕ) (cs after X : List Char)
    (h1 : skipWs cs = '[' :: after) (h2 : skipWs after = '{' :: X)
    (js : List Json) (rest : List Char)
    (h3 : parseItems f ('{' :: X) = some (js, rest)) :
    parseValue (f + 1) cs = some (Json.arr js, rest) := by
  rw [parseValue, h1]
  simp [h2, h3]

theorem parseValue_arr_empty (f : ℕ) (cs after : List Char)
    (h1 : skipWs cs = '[' :: after) (h2 : skipWs after = ']' :: rest) :
    parseValue (f + 1) cs = some (Json.arr [], rest) := by
  rw [parseValue, h1]
  simp [h2]

theorem parseItems_cons_step (f : ℕ) (cs vrest cont : List Char) (j : Json)
    (h1 : parseValue f cs = some (j, vrest)) (h2 : skipWs vrest = ',' :: cont)
    (js : List Json) (rest : List Char) (h3 : parseItems f cont = some (js, rest)) :
    parseItems (f + 1) cs = some (j :: js, rest) := by
  rw [parseItems, h1]
  simp [h2, h3]

theorem parseItems_last_step (f : ℕ) (cs vrest rest : List Char) (j : Json)
    (h1 : parseValue f cs = some (j, vrest)) (h2 : skipWs vrest = ']' :: rest) :
    parseItems (f + 1) cs = some ([j], rest) := by
  rw [parseItems, h1]
  simp [h2]

theorem parseFields_cons_gen (f : ℕ) (cs X content rest3 vrest cont : List Char)
    (j : Json)
    (h1 : skipWs cs = '"' :: X)
    (h2 : parseStringBody (X.length + 1) X = some (content, ':' :: rest3))
    (h3 : parseValue f rest3 = some (j, vrest))
    (h4 : skipWs vrest = ',' :: cont)
    (fields : List (String × Json)) (rest : List Char)
    (h5 : parseFields f cont = some (fields, rest)) :
    parseFields (f + 1) cs = some ((content.asString, j) :: fields, rest) := by
  rw [parseFields, h1]
  simp [h2, show skipWs (':' :: rest3) = ':' :: rest3 from
    skipWs_cons_not_ws _ (by decide : isWsChar ':' = false), h3, h4, h5]

theorem parseFields_last_gen (f : ℕ) (cs X content rest3 vrest rest : List Char)
    (j : Json)
    (h1 : skipWs cs = '"' :: X)
    (h2 : parseStringBody (X.length + 1) X = some (content, ':' :: rest3))
    (h3 : parseValue f rest3 = some (j, vrest))
    (h4 : skipWs vrest = '}' :: rest) :
    parseFields (f + 1) cs = some ([(content.asString, j)], rest) := by
  rw [parseFields, h1]
  simp [h2, show skipWs (':' :: rest3) = ':' :: rest3 from
    skipWs_cons_not_ws _ (by decide : isWsChar ':' = false), h3, h4]

/-- Whole-key reading, for the concrete unescaped keys of this document. -/
theorem parseStringBody_key (key tail : List Char) (hkey : key.flatMap escapeChar = key) :
    parseStringBody ((key ++ ('"' :: tail)).length + 1) (key ++ ('"' :: tail))
      = some (key, tail) := by
  have h := parseStringBody_escape key tail ((key ++ ('"' :: tail)).length + 1)
    (by simp only [List.length_append, List.length_cons]; omega)
  rwa [hkey] at h

theorem segData_eq (numRepr : ℚ → String) (seg : Segment) (suffix : List Char) :
    (segJsonString numRepr seg).data ++ suffix
      = ' ' :: ' ' :: ' ' :: ' ' :: '{' :: segCore numRepr seg suffix := by
  have l1 : ("    \x7b\n      \"id\": " : String).data
      = [' ', ' ', ' ', ' ', '{', '\n', ' ', ' ', ' ', ' ', ' ', ' ',
         '"', 'i', 'd', '"', ':', ' '] := rfl
  have l2 : (",\n      \"start\": " : String).data
      = [',', '\n', ' ', ' ', ' ', ' ', ' ', ' ',
         '"', 's', 't', 'a', 'r', 't', '"', ':', ' '] := rfl
  have l3 : (",\n      \"end\": " : String).data
      = [',', '\n', ' ', ' ', ' ', ' ', ' ', ' ',
         '"', 'e', 'n', 'd', '"', ':', ' '] := rfl
  have l4 : (",\n      \"text\": " : String).data
      = [',', '\n', ' ', ' ', ' ', ' ', ' ', ' ',
         '"', 't', 'e', 'x', 't', '"', ':', ' '] := rfl
  have l5 : ("\n    \x7d" : String).data = ['\n', ' ', ' ', ' ', ' ', '}'] := rfl
  simp only [segJsonString, segCore, String.data_append, l1, l2, l3, l4, l5,
    List.cons_append, List.append_assoc, List.nil_append]

theorem intercalate_go_acc (s : String) :
    ∀ (l : List String) (a b : String),
      String.intercalate.go (a ++ b) s l = a ++ String.intercalate.go b s l := by
  intro l
  induction l with
  | nil => intro a b; rfl
  | cons x xs ih =>
    intro a b
    show String.intercalate.go ((a ++ b) ++ s ++ x) s xs
      = a ++ String.intercalate.go (b ++ s ++ x) s xs
    rw [show (a ++ b) ++ s ++ x = a ++ (b ++ s ++ x) by
      simp [String.append_assoc]]
    exact ih a (b ++ s ++ x)

theorem intercalate_cons₂ (s a b : String) (l : List String) :
    String.intercalate s (a :: b :: l) = a ++ s ++ String.intercalate s (b :: l) := by
  show String.intercalate.go a s (b :: l) = a ++ s ++ String.intercalate.go b s l
  rw [show String.intercalate.go a s (b :: l)
      = String.intercalate.go ((a ++ s) ++ b) s l from rfl]
  rw [intercalate_go_acc s l (a ++ s) b, String.append_assoc]

theorem segsTail_intercalate (numRepr : ℚ → String) :
    ∀ (ss : List Segment) (s : Segment) (R : List Char),
      (String.intercalate ",\n" ((s :: ss).map (segJsonString numRepr))).data
          ++ ('\n' :: ' ' :: ' ' :: ']' :: R)
        = (segJsonString numRepr s).data ++ segsTail numRepr ss R := by
  intro ss
  induction ss with
  | nil => intro s R; rfl
  | cons s2 ss2 ih =>
    intro s R
    rw [List.map_cons, List.map_cons]
    rw [show (segJsonString numRepr s :: segJsonString numRepr s2
        :: ss2.map (segJsonString numRepr))
      = segJsonString numRepr s :: segJsonString numRepr s2
        :: ss2.map (segJsonString numRepr) from rfl]
    rw [intercalate_cons₂]
    rw [String.data_append, String.data_append]
    rw [show (",\n" : String).data = [',', '\n'] from rfl]
    rw [List.append_assoc, List.append_assoc]
    rw [show ([',', '\n'] : List Char)
        ++ ((String.intercalate ",\n" (segJsonString numRepr s2
            :: ss2.map (segJsonString numRepr))).data ++ ('\n' :: ' ' :: ' ' :: ']' :: R))
      = [',', '\n'] ++ ((String.intercalate ",\n" ((s2 :: ss2).map (segJsonString numRepr))).data
            ++ ('\n' :: ' ' :: ' ' :: ']' :: R)) from by rw [List.map_cons]]
    rw [ih s2 R]
    rfl

theorem comma_head_not_num (l : List Char) :
    ∀ c, ((',' :: l) : List Char).head? = some c → isNumChar c = false := by
  intro c hc
  simp at hc
  subst hc
  rfl

theorem parseFields_wsLead (pre : List Char) (h : ∀ c ∈ pre, isWsChar c = true)
    (x : List Char) (fuel : ℕ) :
    parseFields fuel (pre ++ x) = parseFields fuel x := by
  induction pre with
  | nil => rfl
  | cons c l ih =>
    rw [List.cons_append, parseFields_cons_ws _ (h c (by simp))]
    exact ih (fun c hc => h c (by simp [hc]))

/-- Reading one `"key": "string value"` field that is the last of its object. -/
theorem stepStrFieldLast (key : List Char) (hkey : key.flatMap escapeChar = key)
    (s : String) (g : ℕ) (hg : 1 ≤ g) (t4 : List Char) (rest' : List Char)
    (h4 : skipWs t4 = '}' :: rest') :
    parseFields (g + 1)
        ('"' :: (key ++ ('"' :: ':' :: ' ' :: ((encodeString s).data ++ t4))))
      = some ([(key.asString, Json.str s)], rest') := by
  have h1 : skipWs ('"' :: (key ++ ('"' :: ':' :: ' ' :: ((encodeString s).data ++ t4))))
      = '"' :: (key ++ ('"' :: ':' :: ' ' :: ((encodeString s).data ++ t4))) :=
    skipWs_cons_not_ws _ (by decide)
  have h2 := parseStringBody_key key (':' :: ' ' :: ((encodeString s).data ++ t4)) hkey
  have h3 : parseValue g (' ' :: ((encodeString s).data ++ t4))
      = some (Json.str s, t4) := by
    rw [parseValue_cons_ws _ (by decide)]
    exact parseValue_str _ _ _ hg
  exact parseFields_last_gen g _ _ _ _ _ _ _ h1 h2 h3 h4

/-- Reading one `"key": "string value"` field followed by a comma. -/
theorem stepStrField (key : List Char) (hkey : key.flatMap escapeChar = key)
    (s : String) (g : ℕ) (hg : 1 ≤ g) (cont : List Char)
    (fields : List (String × Json)) (rest' : List Char)
    (h5 : parseFields g cont = some (fields, rest')) :
    parseFields (g + 1)
        ('"' :: (key ++ ('"' :: ':' :: ' ' :: ((encodeString s).data ++ (',' :: cont)))))
      = some ((key.asString, Json.str s) :: fields, rest') := by
  have h1 : skipWs ('"' :: (key ++ ('"' :: ':' :: ' ' ::
        ((encodeString s).data ++ (',' :: cont)))))
      = '"' :: (key ++ ('"' :: ':' :: ' ' :: ((encodeString s).data ++ (',' :: cont)))) :=
    skipWs_cons_not_ws _ (by decide)
  have h2 := parseStringBody_key key
    (':' :: ' ' :: ((encodeString s).data ++ (',' :: cont))) hkey
  have h3 : parseValue g (' ' :: ((encodeString s).data ++ (',' :: cont)))
      = some (Json.str s, ',' :: cont) := by
    rw [parseValue_cons_ws _ (by decide)]
    exact parseValue_str _ _ _ hg
  have h4 : skipWs (',' :: cont) = ',' :: cont := skipWs_cons_not_ws _ (by decide)
  exact parseFields_cons_gen g _ _ _ _ _ _ _ h1 h2 h3 h4 _ _ h5

/-- Reading one `"key": <float>` field followed by a comma. -/
theorem stepNumField (numRepr : ℚ → String) (q : ℚ) (hq : goodNumRepr numRepr q)
    (key : List Char) (hkey : key.flatMap escapeChar = key)
    (g : ℕ) (hg : 1 ≤ g) (cont : List Char)
    (fields : List (String × Json)) (rest' : List Char)
    (h5 : parseFields g cont = some (fields, rest')) :
    parseFields (g + 1)
        ('"' :: (key ++ ('"' :: ':' :: ' ' :: ((numRepr q).data ++ (',' :: cont)))))
      = some ((key.asString, Json.num q) :: fields, rest') := by
  have h1 : skipWs ('"' :: (key ++ ('"' :: ':' :: ' ' ::
        ((numRepr q).data ++ (',' :: cont)))))
      = '"' :: (key ++ ('"' :: ':' :: ' ' :: ((numRepr q).data ++ (',' :: cont)))) :=
    skipWs_cons_not_ws _ (by decide)
  have h2 := parseStringBody_key key
    (':' :: ' ' :: ((numRepr q).data ++ (',' :: cont))) hkey
  have h3 : parseValue g (' ' :: ((numRepr q).data ++ (',' :: cont)))
      = some (Json.num q, ',' :: cont) := by
    rw [parseValue_cons_ws _ (by decide)]
    exact parseValue_good numRepr q hq _ (comma_head_not_num cont) g hg
  have h4 : skipWs (',' :: cont) = ',' :: cont := skipWs_cons_not_ws _ (by decide)
  exact parseFields_cons_gen g _ _ _ _ _ _ _ h1 h2 h3 h4 _ _ h5

/-- Reading one `"key": <int>` field followed by a comma. -/
theorem stepIntField (i : ℤ) (key : List Char) (hkey : key.flatMap escapeChar = key)
    (g : ℕ) (hg : 1 ≤ g) (cont : List Char)
    (fields : List (String × Json)) (rest' : List Char)
    (h5 : parseFields g cont = some (fields, rest')) :
    parseFields (g + 1)
        ('"' :: (key ++ ('"' :: ':' :: ' ' :: ((intStr i).data ++ (',' :: cont)))))
      = some ((key.asString, Json.num (i : ℚ)) :: fields, rest') := by
  have h1 : skipWs ('"' :: (key ++ ('"' :: ':' :: ' ' ::
        ((intStr i).data ++ (',' :: cont)))))
      = '"' :: (key ++ ('"' :: ':' :: ' ' :: ((intStr i).data ++ (',' :: cont)))) :=
    skipWs_cons_not_ws _ (by decide)
  have h2 := parseStringBody_key key
    (':' :: ' ' :: ((intStr i).data ++ (',' :: cont))) hkey
  have h3 : parseValue g (' ' :: ((intStr i).data ++ (',' :: cont)))
      = some (Json.num (i : ℚ), ',' :: cont) := by
    rw [parseValue_cons_ws _ (by decide)]
    exact parseValue_intStr i _ (comma_head_not_num cont) g hg
  have h4 : skipWs (',' :: cont) = ',' :: cont := skipWs_cons_not_ws _ (by decide)
  exact parseFields_cons_gen g _ _ _ _ _ _ _ h1 h2 h3 h4 _ _ h5

/-- Reading a whole rendered segment object from its opening brace. -/
theorem parse_segCore (numRepr : ℚ → String) (seg : Segment)
    (hs : goodNumRepr numRepr seg.start) (he : goodNumRepr numRepr seg.«end»)
    (g : ℕ) (hg : 5 ≤ g) (suffix : List Char) :
    parseValue (g + 1) ('{' :: segCore numRepr seg suffix)
      = some (segJson seg, suffix) := by
  obtain ⟨g1, rfl⟩ : ∃ g1, g = g1 + 4 := ⟨g - 4, by omega⟩
  have hText := stepStrFieldLast ['t', 'e', 'x', 't'] (by decide) seg.text g1
    (by omega) ('\n' :: ' ' :: ' ' :: ' ' :: ' ' :: '}' :: suffix) suffix
    (by simp [skipWs, List.dropWhile_cons, isWsChar])
  have hTextW := (parseFields_wsLead ['\n', ' ', ' ', ' ', ' ', ' ', ' ']
    (by decide) _ (g1 + 1)).trans hText
  have hEnd := stepNumField numRepr seg.«end» he ['e', 'n', 'd'] (by decide)
    (g1 + 1) (by omega) _ _ _ hTextW
  have hEndW := (parseFields_wsLead ['\n', ' ', ' ', ' ', ' ', ' ', ' ']
    (by decide) _ (g1 + 2)).trans hEnd
  have hStart := stepNumField numRepr seg.start hs ['s', 't', 'a', 'r', 't'] (by decide)
    (g1 + 2) (by omega) _ _ _ hEndW
  have hStartW := (parseFields_wsLead ['\n', ' ', ' ', ' ', ' ', ' ', ' ']
    (by decide) _ (g1 + 3)).trans hStart
  have hId := stepIntField seg.id ['i', 'd'] (by decide)
    (g1 + 3) (by omega) _ _ _ hStartW
  refine parseValue_obj_step (g1 + 4) _ _ _ (skipWs_cons_not_ws _ (by decide)) ?_ _ _ hId
  rw [segCore]
  simp [skipWs, List.dropWhile_cons, isWsChar]

/-- Reading the whole rendered segment list from the first opening brace. -/
theorem parse_segsItems (numRepr : ℚ → String) :
    ∀ (ss : List Segment) (s : Segment),
      goodNumRepr numRepr s.start → goodNumRepr numRepr s.«end» →
      (∀ t ∈ ss, goodNumRepr numRepr t.start ∧ goodNumRepr numRepr t.«end») →
      ∀ (g : ℕ), ss.length + 7 ≤ g → ∀ (rest : List Char),
        parseItems g ('{' :: segCore numRepr s (segsTail numRepr ss rest))
          = some (segJson s :: ss.map segJson, rest) := by
  intro ss
  induction ss with
  | nil =>
    intro s hs he _ g hgf rest
    obtain ⟨g1, rfl⟩ : ∃ g1, g = g1 + 1 := ⟨g - 1, by omega⟩
    refine parseItems_last_step g1 _ (segsTail numRepr [] rest) rest _ ?_ ?_
    · obtain ⟨g2, hg2⟩ : ∃ g2, g1 = g2 + 1 := ⟨g1 - 1, by omega⟩
      rw [hg2]
      exact parse_segCore numRepr s hs he g2 (by omega) _
    · rw [segsTail]
      simp [skipWs, List.dropWhile_cons, isWsChar]
  | cons s2 ss2 ih =>
    intro s hs he hss g hgf rest
    obtain ⟨g1, rfl⟩ : ∃ g1, g = g1 + 1 := ⟨g - 1, by omega⟩
    refine parseItems_cons_step g1 _ (segsTail numRepr (s2 :: ss2) rest)
      ('\n' :: ((segJsonString numRepr s2).data ++ segsTail numRepr ss2 rest))
      _ ?_ ?_ _ rest ?_
    · obtain ⟨g2, hg2⟩ : ∃ g2, g1 = g2 + 1 := ⟨g1 - 1, by omega⟩
      rw [hg2]
      exact parse_segCore numRepr s hs he g2 (by omega) _
    · rw [segsTail]
      exact skipWs_cons_not_ws _ (by decide)
    · rw [show ('\n' :: ((segJsonString numRepr s2).data ++ segsTail numRepr ss2 rest)
          : List Char)
        = ['\n'] ++ ((segJsonString numRepr s2).data ++ segsTail numRepr ss2 rest)
          from rfl]
      rw [parseItems_wsLead ['\n'] (by decide) _ g1]
      rw [segData_eq]
      rw [show (' ' :: ' ' :: ' ' :: ' ' ::
          '{' :: segCore numRepr s2 (segsTail numRepr ss2 rest) : List Char)
        = [' ', ' ', ' ', ' ']
          ++ ('{' :: segCore numRepr s2 (segsTail numRepr ss2 rest)) from rfl]
      rw [parseItems_wsLead [' ', ' ', ' ', ' '] (by decide) _ g1]
      refine ih s2 (hss s2 (by simp)).1 (hss s2 (by simp)).2
        (fun t ht => hss t (by simp [ht])) g1 ?_ rest
      simp only [List.length_cons] at hgf
      omega

/-- `generate_json` on a result with no segments, with the `if` resolved. -/
theorem generate_json_nil (numRepr : ℚ → String) (result : TranscriptionResult)
    (hseg : result.segments = []) :
    generate_json numRepr result
      = "\x7b\n  \"text\": " ++ encodeString result.text
        ++ ",\n  \"language\": " ++ encodeString result.language
        ++ ",\n  \"segments\": " ++ "[]" ++ "\n\x7d" := by
  unfold generate_json
  rw [hseg, if_pos (show ([] : List Segment).isEmpty = true from rfl)]

/-- `generate_json` on a result with at least one segment, with the `if`
resolved. -/
theorem generate_json_cons (numRepr : ℚ → String) (result : TranscriptionResult)
    (s : Segment) (ss : List Segment) (hseg : result.segments = s :: ss) :
    generate_json numRepr result
      = "\x7b\n  \"text\": " ++ encodeString result.text
        ++ ",\n  \"language\": " ++ encodeString result.language
        ++ ",\n  \"segments\": "
        ++ ("[\n" ++ String.intercalate ",\n" ((s :: ss).map (segJsonString numRepr))
            ++ "\n  ]")
        ++ "\n\x7d" := by
  unfold generate_json
  rw [hseg, if_neg (by simp)]

theorem segJsonString_length_pos (numRepr : ℚ → String) (seg : Segment) :
    1 ≤ (segJsonString numRepr seg).length := by
  have h : ("    \x7b\n      \"id\": " : String).length = 18 := rfl
  simp only [segJsonString, String.length_append, h]
  omega

/-- The rendered segment list is at least as long as the segment count. -/
theorem intercalate_segs_length (numRepr : ℚ → String) :
    ∀ (ss : List Segment) (s : Segment),
      ss.length + 1
        ≤ (String.intercalate ",\n" ((s :: ss).map (segJsonString numRepr))).length := by
  intro ss
  induction ss with
  | nil =>
    intro s
    have e : String.intercalate ",\n" ((s :: ([] : List Segment)).map (segJsonString numRepr))
        = segJsonString numRepr s := rfl
    rw [e]
    simpa using segJsonString_length_pos numRepr s
  | cons s2 ss2 ih =>
    intro s
    rw [List.map_cons, List.map_cons, intercalate_cons₂, String.length_append,
      String.length_append]
    have h2 := ih s2
    rw [List.map_cons] at h2
    have h3 : (",\n" : String).length = 2 := rfl
    simp only [List.length_cons, h3]
    omega

/-- The characters of the whole rendered document, as a spine ready for the
field-reading lemmas. -/
theorem docData_eq (t l SEGS : String) :
    ("\x7b\n  \"text\": " ++ encodeString t
        ++ ",\n  \"language\": " ++ encodeString l
        ++ ",\n  \"segments\": " ++ SEGS ++ "\n\x7d" : String).data
      = '{' :: '\n' :: ' ' :: ' '
        :: '"' :: (['t', 'e', 'x', 't'] ++ ('"' :: ':' :: ' '
        :: ((encodeString t).data ++ (',' :: '\n' :: ' ' :: ' '
        :: '"' :: (['l', 'a', 'n', 'g', 'u', 'a', 'g', 'e'] ++ ('"' :: ':' :: ' '
        :: ((encodeString l).data ++ (',' :: '\n' :: ' ' :: ' '
        :: '"' :: (['s', 'e', 'g', 'm', 'e', 'n', 't', 's'] ++ ('"' :: ':' :: ' '
        :: (SEGS.data ++ ('\n' :: '}' :: [])))))))))))) := by
  have l1 : ("\x7b\n  \"text\": " : String).data
      = ['{', '\n', ' ', ' ', '"', 't', 'e', 'x', 't', '"', ':', ' '] := rfl
  have l2 : (",\n  \"language\": " : String).data
      = [',', '\n', ' ', ' ', '"', 'l', 'a', 'n', 'g', 'u', 'a', 'g', 'e', '"',
         ':', ' '] := rfl
  have l3 : (",\n  \"segments\": " : String).data
      = [',', '\n', ' ', ' ', '"', 's', 'e', 'g', 'm', 'e', 'n', 't', 's', '"',
         ':', ' '] := rfl
  have l4 : ("\n\x7d" : String).data = ['\n', '}'] := rfl
  simp only [String.data_append, l1, l2, l3, l4, List.cons_append,
    List.append_assoc, List.nil_append]

/-- Reading the whole rendered document, given a reading of the value of its
`segments` field. -/
theorem parse_doc (numRepr : ℚ → String) (t l SEGS : String) (segs : List Segment)
    (L : ℕ)
    (hArr : parseValue (L + 6) (' ' :: (SEGS.data ++ ('\n' :: '}' :: [])))
      = some (Json.arr (segs.map segJson), '\n' :: '}' :: [])) :
    parseValue (L + 10)
        ("\x7b\n  \"text\": " ++ encodeString t
          ++ ",\n  \"language\": " ++ encodeString l
          ++ ",\n  \"segments\": " ++ SEGS ++ "\n\x7d" : String).data
      = some (Json.obj [("text", Json.str t), ("language", Json.str l),
          ("segments", Json.arr (segs.map segJson))], []) := by
  have hSegsF : parseFields (L + 7)
      ('"' :: (['s', 'e', 'g', 'm', 'e', 'n', 't', 's'] ++ ('"' :: ':' :: ' '
        :: (SEGS.data ++ ('\n' :: '}' :: [])))))
      = some ([("segments", Json.arr (segs.map segJson))], []) := by
    refine parseFields_last_gen (L + 6) _ _ ['s', 'e', 'g', 'm', 'e', 'n', 't', 's']
      (' ' :: (SEGS.data ++ ('\n' :: '}' :: []))) ('\n' :: '}' :: []) [] _
      (skipWs_cons_not_ws _ (by decide)) ?_ hArr ?_
    · exact parseStringBody_key ['s', 'e', 'g', 'm', 'e', 'n', 't', 's']
        (':' :: ' ' :: (SEGS.data ++ ('\n' :: '}' :: []))) (by decide)
    · simp [skipWs, List.dropWhile_cons, isWsChar]
  have hSegsW := (parseFields_wsLead ['\n', ' ', ' '] (by decide) _ (L + 7)).trans hSegsF
  have hLangF := stepStrField ['l', 'a', 'n', 'g', 'u', 'a', 'g', 'e'] (by decide) l
    (L + 7) (by omega) _ _ _ hSegsW
  have hLangW := (parseFields_wsLead ['\n', ' ', ' '] (by decide) _ (L + 8)).trans hLangF
  have hTextF := stepStrField ['t', 'e', 'x', 't'] (by decide) t
    (L + 8) (by omega) _ _ _ hLangW
  rw [docData_eq]
  rw [show L + 10 = (L + 9) + 1 by omega]
  refine parseValue_obj_step (L + 9) _ _ _ (skipWs_cons_not_ws _ (by decide)) ?_ _ _ hTextF
  simp [skipWs, List.dropWhile_cons, isWsChar]

/-- C4: Round-trip — for every `TranscriptionResult`, parsing the string
returned by `generate_json` as JSON recovers an object whose `text` and
`language` fields equal the original result's text and language, and whose
`segments` field is the list of objects `{id, start, end, text}` in the
original segment order with values equal to the original segments' fields,
provided the numeric rendering used for the floating-point fields
round-trips (as Python's float `repr` does). -/
theorem claim_C4_json_roundtrip (numRepr : ℚ → String) (result : TranscriptionResult)
    (hgood : ∀ seg ∈ result.segments,
      goodNumRepr numRepr seg.start ∧ goodNumRepr numRepr seg.«end») :
    parseJson (generate_json numRepr result) = some (jsonOfResult result) := by
  obtain ⟨L, hL⟩ : ∃ L, (generate_json numRepr result).length = L := ⟨_, rfl⟩
  have hmain : parseValue (L + 10) (generate_json numRepr result).data
      = some (jsonOfResult result, []) := by
    rcases hseg : result.segments with _ | ⟨s, ss⟩
    · rw [generate_json_nil numRepr result hseg]
      simp only [jsonOfResult, hseg]
      refine parse_doc numRepr result.text result.language "[]" [] L ?_
      rw [show (("[]" : String).data ++ ('\n' :: '}' :: []) : List Char)
          = '[' :: ']' :: '\n' :: '}' :: [] from rfl]
      rw [parseValue_cons_ws _ (by decide)]
      rw [show L + 6 = (L + 5) + 1 by omega]
      exact parseValue_arr_empty (L + 5) _ _ (skipWs_cons_not_ws _ (by decide))
        (skipWs_cons_not_ws _ (by decide))
    · rw [hseg] at hgood
      have hlen : ss.length + 3 ≤ L := by
        rw [← hL, generate_json_cons numRepr result s ss hseg]
        have h2 := intercalate_segs_length numRepr ss s
        have l1 : ("\x7b\n  \"text\": " : String).length = 12 := rfl
        have l2 : (",\n  \"language\": " : String).length = 16 := rfl
        have l3 : (",\n  \"segments\": " : String).length = 16 := rfl
        have l4 : ("\n\x7d" : String).length = 2 := rfl
        have l6 : ("[\n" : String).length = 2 := rfl
        have l7 : ("\n  ]" : String).length = 4 := rfl
        simp only [String.length_append, l1, l2, l3, l4, l6, l7]
        omega
      rw [generate_json_cons numRepr result s ss hseg]
      simp only [jsonOfResult, hseg]
      refine parse_doc numRepr result.text result.language
        ("[\n" ++ String.intercalate ",\n" ((s :: ss).map (segJsonString numRepr))
          ++ "\n  ]") (s :: ss) L ?_
      have hdata : (("[\n" ++ String.intercalate ",\n"
              ((s :: ss).map (segJsonString numRepr)) ++ "\n  ]") : String).data
            ++ ('\n' :: '}' :: [])
          = '[' :: '\n'
            :: ((String.intercalate ",\n" ((s :: ss).map (segJsonString numRepr))).data
              ++ ('\n' :: ' ' :: ' ' :: ']' :: ('\n' :: '}' :: []))) := by
        simp only [String.data_append, show ("[\n" : String).data = ['[', '\n'] from rfl,
          show ("\n  ]" : String).data = ['\n', ' ', ' ', ']'] from rfl,
          List.cons_append, List.append_assoc, List.nil_append]
      rw [hdata, segsTail_intercalate numRepr ss s ('\n' :: '}' :: []), segData_eq]
      rw [parseValue_cons_ws _ (by decide)]
      rw [show L + 6 = (L + 5) + 1 by omega]
      refine parseValue_arr_step (L + 5) _ _
        (segCore numRepr s (segsTail numRepr ss ('\n' :: '}' :: [])))
        (skipWs_cons_not_ws _ (by decide)) ?_ _ _ ?_
      · simp [skipWs, List.dropWhile_cons, isWsChar]
      · exact parse_segsItems numRepr ss s (hgood s (by simp)).1 (hgood s (by simp)).2
          (fun t ht => hgood t (by simp [ht])) (L + 5) (by omega) ('\n' :: '}' :: [])
  simp only [parseJson]
  rw [hL, hmain]
  rfl

/-- C4 holds with its hypothesis discharged at a concrete result and a
concrete numeric rendering. -/
theorem claim_C4_witness :
    (∀ seg ∈ exampleJsonResult.segments,
      goodNumRepr exampleNumRepr seg.start ∧ goodNumRepr exampleNumRepr seg.«end») ∧
    parseJson (generate_json exampleNumRepr exampleJsonResult)
      = some (jsonOfResult exampleJsonResult) := by
  have h0 : goodNumRepr exampleNumRepr 0 := by
    have h := intStr_goodNum ((0 : ℚ).num)
    refine ⟨h.1, h.2.1, ?_⟩
    simp only [exampleNumRepr]
    rw [h.2.2]
    norm_num
  have h2 : goodNumRepr exampleNumRepr 2 := by
    have h := intStr_goodNum ((2 : ℚ).num)
    refine ⟨h.1, h.2.1, ?_⟩
    simp only [exampleNumRepr]
    rw [h.2.2]
    norm_num
  have hgood : ∀ seg ∈ exampleJsonResult.segments,
      goodNumRepr exampleNumRepr seg.start ∧ goodNumRepr exampleNumRepr seg.«end» := by
    intro seg hseg
    simp only [exampleJsonResult, List.mem_singleton] at hseg
    subst hseg
    exact ⟨h0, h2⟩
  exact ⟨hgood, claim_C4_json_roundtrip exampleNumRepr exampleJsonResult hgood⟩

/-- C10: for a `TranscriptionResult` with an empty segment list,
`generate_srt` returns the empty string, `generate_vtt` returns exactly
`"WEBVTT\n"` (header line and a single newline, no blank line after it), and
`generate_json` still returns a well-formed document with an empty
`segments` array. -/
theorem claim_C10_empty_segments (numRepr : ℚ → String) (text lang : String) :
    generate_srt { text := text, segments := [], language := lang } = "" ∧
    generate_vtt { text := text, segments := [], language := lang } = "WEBVTT\n" ∧
    parseJson (generate_json numRepr
        { text := text, segments := [], language := lang })
      = some (Json.obj [("text", Json.str text), ("language", Json.str lang),
          ("segments", Json.arr [])]) := by
  refine ⟨rfl, rfl, ?_⟩
  obtain ⟨L, hL⟩ : ∃ L, (generate_json numRepr
      { text := text, segments := [], language := lang
        : TranscriptionResult }).length = L := ⟨_, rfl⟩
  have hmain : parseValue (L + 10) (generate_json numRepr
      { text := text, segments := [], language := lang }).data
      = some (Json.obj [("text", Json.str text), ("language", Json.str lang),
          ("segments", Json.arr [])], []) := by
    rw [generate_json_nil numRepr _ rfl]
    exact parse_doc numRepr text lang "[]" [] L (by
      rw [show (("[]" : String).data ++ ('\n' :: '}' :: []) : List Char)
          = '[' :: ']' :: '\n' :: '}' :: [] from rfl]
      rw [parseValue_cons_ws _ (by decide)]
      rw [show L + 6 = (L + 5) + 1 by omega]
      exact parseValue_arr_empty (L + 5) _ _ (skipWs_cons_not_ws _ (by decide))
        (skipWs_cons_not_ws _ (by decide)))
  simp only [parseJson]
  rw [hL, hmain]
  rfl

theorem lookup_insertOrUpdate :
    ∀ (m : List (String × String)) (k v k' : String),
      (insertOrUpdate m k v).lookup k' = if k' = k then some v else m.lookup k' := by
  intro m
  induction m with
  | nil =>
    intro k v k'
    by_cases h : k' = k
    · simp [insertOrUpdate, List.lookup, h]
    · have hb : (k' == k) = false := by simp [h]
      simp [insertOrUpdate, List.lookup, h, hb]
  | cons p m ih =>
    intro k v k'
    obtain ⟨pk, pv⟩ := p
    by_cases h : pk = k
    · subst h
      by_cases h' : k' = pk
      · simp [insertOrUpdate, List.lookup, h']
      · have hb : (k' == pk) = false := by simp [h']
        simp [insertOrUpdate, List.lookup, h', hb]
    · have hb : (k == pk) = false := by
        simp only [beq_eq_false_iff_ne, ne_eq]
        exact fun hh => h hh.symm
      by_cases h' : k' = pk
      · subst h'
        have hb2 : (k' == k) = false := by
          simp only [beq_eq_false_iff_ne, ne_eq]
          exact fun hh => h (by rw [hh])
        simp [insertOrUpdate, h, List.lookup, hb2]
      · have hb3 : (k' == pk) = false := by simp [h']
        by_cases h2 : k' = k <;>
          simp [insertOrUpdate, h, h', h2, hb, hb3, List.lookup, ih]

/-- Lookup characterization of the `save_transcription` loop, for any
starting accumulator. -/
theorem save_go (numRepr : ℚ → String) (result : TranscriptionResult)
    (output_path : String) (writeOk : String → String → Bool) :
    ∀ (formats : List String) (acc : List (String × String)) (k : String),
      (formats.foldl (saveStep numRepr result output_path writeOk) acc).lookup k
        = match (format_generators numRepr).lookup k with
          | none => acc.lookup k
          | some gen =>
            if (∃ fmt ∈ formats, strLower fmt = k)
                ∧ writeOk (output_path ++ "." ++ k) (gen result) = true
            then some (output_path ++ "." ++ k)
            else acc.lookup k := by
  intro formats
  induction formats with
  | nil =>
    intro acc k
    cases hlk : (format_generators numRepr).lookup k <;> simp [hlk]
  | cons f fs ih =>
    intro acc k
    rw [List.foldl_cons, ih]
    by_cases hf : strLower f = k
    · cases hlk : (format_generators numRepr).lookup k with
      | none => simp [saveStep, hf, hlk]
      | some gen =>
        simp only [hlk]
        by_cases hw : writeOk (output_path ++ "." ++ k) (gen result) = true
        · have hstep : (saveStep numRepr result output_path writeOk acc f).lookup k
              = some (output_path ++ "." ++ k) := by
            simp only [saveStep, hf, hlk]
            rw [if_pos hw, lookup_insertOrUpdate, if_pos (rfl : k = k)]
          rw [hstep, ite_self, if_pos ⟨⟨f, by simp, hf⟩, hw⟩]
        · have hstep : saveStep numRepr result output_path writeOk acc f = acc := by
            simp only [saveStep, hf, hlk]
            rw [if_neg hw]
          rw [hstep, if_neg (fun hc => hw hc.2), if_neg (fun hc => hw hc.2)]
    · have hstep : (saveStep numRepr result output_path writeOk acc f).lookup k
          = acc.lookup k := by
        cases hlf : (format_generators numRepr).lookup (strLower f) with
        | none => simp [saveStep, hlf]
        | some genf =>
          simp only [saveStep, hlf]
          by_cases hw : writeOk (output_path ++ "." ++ strLower f) (genf result) = true
          · rw [if_pos hw, lookup_insertOrUpdate, if_neg (fun hh => hf hh.symm)]
          · rw [if_neg hw]
      cases hlk : (format_generators numRepr).lookup k with
      | none =>
        simp only [hlk]
        exact hstep
      | some gen =>
        simp only [hlk]
        rw [hstep]
        have hiff : (∃ fmt ∈ fs, strLower fmt = k) ↔ (∃ fmt ∈ f :: fs, strLower fmt = k) := by
          constructor
          · rintro ⟨x, hx, hxe⟩
            exact ⟨x, by simp [hx], hxe⟩
          · rintro ⟨x, hx, hxe⟩
            rcases List.mem_cons.1 hx with h1 | h1
            · exact absurd hxe (h1 ▸ hf)
            · exact ⟨x, h1, hxe⟩
        by_cases hc : (∃ fmt ∈ fs, strLower fmt = k)
            ∧ writeOk (output_path ++ "." ++ k) (gen result) = true
        · rw [if_pos hc, if_pos ⟨hiff.1 hc.1, hc.2⟩]
        · rw [if_neg hc, if_neg (fun hc2 => hc ⟨hiff.2 hc2.1, hc2.2⟩)]

/-- C5: `save_transcription` is total (it never raises): each requested
format name whose lowercase form is not a key of `format_generators` is
skipped and absent from the returned mapping; a write failure for one
format leaves every other format's entry unchanged; and the returned
mapping contains exactly the lowercased formats that were requested and
successfully written, each mapped to `output_path ++ "." ++ fmt`. -/
theorem claim_C5_save_transcription (numRepr : ℚ → String)
    (result : TranscriptionResult) (output_path : String)
    (formats : List String) (writeOk : String → String → Bool) (k : String) :
    (save_transcription numRepr result output_path formats writeOk).lookup k
      = match (format_generators numRepr).lookup k with
        | none => none
        | some gen =>
          if (∃ fmt ∈ formats, strLower fmt = k)
              ∧ writeOk (output_path ++ "." ++ k) (gen result) = true
          then some (output_path ++ "." ++ k)
          else none := by
  rw [save_transcription, save_go]
  cases (format_generators numRepr).lookup k <;> simp [List.lookup]
